import Mathlib

/-!
# Shred: secure deletion of a regular file

A shallow embedding of `shred.go` (function `Shred`, constant `numberPasses`) over an
explicit model of the filesystem primitives it calls (`os.Lstat`, `os.OpenFile`,
`(*os.File).Seek`, `io.CopyN` from `crypto/rand.Reader`, `(*os.File).Sync`,
`(*os.File).Close`, `os.Remove`).

The world is passed explicitly.  Every primitive call appends one record to the world's
trace; the environment decides which calls fail through `World.fault`, indexed by the number
of calls made so far, and supplies the random bytes through `World.rand`.
-/

namespace ShredGo

/-! ## Errors -/

/-- Go error values: a `syscall.Errno`, an opaque message (`errors.New`, `fmt.Errorf` with the
verb `%v`), or an `*fs.PathError` around another error. -/
inductive Error where
  | errno (code : Nat)
  | errorString (text : String)
  | pathError (op : String) (path : String) (err : Error)
deriving DecidableEq, Repr

def ENOENT : Nat := 2
def EIO : Nat := 5
def EBADF : Nat := 9
def EACCES : Nat := 13
def ENOTDIR : Nat := 20
def EISDIR : Nat := 21
def EINVAL : Nat := 22
def ENOSPC : Nat := 28
def EROFS : Nat := 30
def ENAMETOOLONG : Nat := 36
def ELOOP : Nat := 40

/-- Text of `syscall.Errno.Error` for the codes used here. -/
def errnoText (code : Nat) : String :=
  if code = ENOENT then "no such file or directory"
  else if code = EIO then "input/output error"
  else if code = EBADF then "bad file descriptor"
  else if code = EACCES then "permission denied"
  else if code = ENOTDIR then "not a directory"
  else if code = EISDIR then "is a directory"
  else if code = EINVAL then "invalid argument"
  else if code = ENOSPC then "no space left on device"
  else if code = EROFS then "read-only file system"
  else if code = ENAMETOOLONG then "file name too long"
  else if code = ELOOP then "too many levels of symbolic links"
  else "errno " ++ toString code

/-- The method `Error()` of a Go error value: its message. -/
def Error.message : Error → String
  | .errno code => errnoText code
  | .errorString text => text
  | .pathError op path err => op ++ " " ++ path ++ ": " ++ err.message

/-- The value `os.ErrClosed`. -/
def ErrClosed : Error := .errorString "file already closed"

/-- Go `os.underlyingError`: the error inside a `PathError`. -/
def underlyingError : Error → Error
  | .pathError _ _ err => err
  | err => err

/-- Go `os.IsNotExist`: the underlying error is the errno `ENOENT`. -/
def IsNotExist (err : Error) : Bool :=
  match underlyingError err with
  | .errno code => code == ENOENT
  | _ => false

/-- Go `fmt.Errorf(context + "%v", err)`: a fresh opaque error whose message is the context
followed by the message of `err`; it does not wrap `err`. -/
def Errorf (context : String) (err : Error) : Error :=
  .errorString (context ++ err.message)

/-! ## Filesystem -/

/-- A directory entry. A regular file names the inode that holds its data, so that two
entries with the same inode are hard links to the same data. -/
inductive Node where
  | regular (ino : Nat)
  | directory
  | symlink (target : String)
  | device
  | charDevice
  | namedPipe
  | socket
deriving DecidableEq, Repr

def ModeDir : Nat := 2 ^ 31
def ModeSymlink : Nat := 2 ^ 27
def ModeDevice : Nat := 2 ^ 26
def ModeNamedPipe : Nat := 2 ^ 25
def ModeSocket : Nat := 2 ^ 24
def ModeCharDevice : Nat := 2 ^ 21
def ModeIrregular : Nat := 2 ^ 19

/-- Go `fs.ModeType`: the mask of the file type bits. -/
def ModeType : Nat :=
  ModeDir ||| ModeSymlink ||| ModeNamedPipe ||| ModeSocket ||| ModeDevice ||| ModeCharDevice
    ||| ModeIrregular

/-- Go `FileMode.IsRegular`: no type bit is set. -/
def IsRegular (mode : Nat) : Bool :=
  mode &&& ModeType == 0

/-- Type bits that `Lstat` reports for a directory entry. -/
def Node.mode : Node → Nat
  | .regular _ => 0
  | .directory => ModeDir
  | .symlink _ => ModeSymlink
  | .device => ModeDevice
  | .charDevice => ModeDevice ||| ModeCharDevice
  | .namedPipe => ModeNamedPipe
  | .socket => ModeSocket

/-- Go `fs.FileInfo`, the part `Shred` reads: `Mode()` and `Size()`. -/
structure FileInfo where
  Mode : Nat
  Size : Nat
deriving DecidableEq, Repr

/-- The filesystem: the directory entry stored under each full path name, and the data of
each inode. An entry is reached only through `FS.walk`, which checks the path first. -/
structure FS where
  entries : String → Option Node
  inodes : Nat → List Nat

/-- The limit `PATH_MAX` on the length of a path, the final NUL included. -/
def PATH_MAX : Nat := 4096

/-- The limit `NAME_MAX` on the length of one component of a path. -/
def NAME_MAX : Nat := 255

/-- Some component of the path is longer than `NAME_MAX`; `run` is the length of the
component read so far. -/
def componentTooLong : List Char → Nat → Bool
  | [], run => decide (NAME_MAX < run)
  | c :: rest, run =>
    if c = '/' then decide (NAME_MAX < run) || componentTooLong rest 0
    else componentTooLong rest (run + 1)

/-- The ancestors of a path: the part of the path before each slash, the root apart. `seen`
holds the characters read so far. Paths are taken in normal form, without doubled or trailing
slashes. -/
def ancestorsFrom (seen : List Char) : List Char → List String
  | [] => []
  | c :: rest =>
    if c = '/' ∧ seen ≠ [] then String.mk seen :: ancestorsFrom (seen ++ [c]) rest
    else ancestorsFrom (seen ++ [c]) rest

/-- The ancestors of a path, outermost first. -/
def ancestors (path : String) : List String :=
  ancestorsFrom [] path.data

/-- Follow symbolic links from a stored name, at most `depth` of them. -/
def followLinks (entries : String → Option Node) : Nat → String → Except Nat Node
  | 0, _ => .error ELOOP
  | depth + 1, name =>
    match entries name with
    | none => .error ENOENT
    | some (.symlink target) => followLinks entries depth target
    | some node => .ok node

/-- The errno with which the walk through the ancestors of a path stops, if it does: a
missing ancestor gives `ENOENT`, an ancestor that is not a directory gives `ENOTDIR`. -/
def ancestorError (entries : String → Option Node) : List String → Option Nat
  | [] => none
  | name :: rest =>
    match followLinks entries 40 name with
    | .ok .directory => ancestorError entries rest
    | .ok _ => some ENOTDIR
    | .error code => some code

/-- Path resolution, the last component not followed: the entry the path names, or the errno
of the failed lookup. The empty path and an absent name under existing directories give
`ENOENT`; a path or component that is too long gives `ENAMETOOLONG`; a path through something
that is not a directory gives `ENOTDIR`. -/
def walkPath (entries : String → Option Node) (path : String) : Except Nat Node :=
  if path = "" then .error ENOENT
  else if PATH_MAX ≤ path.length ∨ componentTooLong path.data 0 = true then
    .error ENAMETOOLONG
  else
    match ancestorError entries (ancestors path) with
    | some code => .error code
    | none =>
      match entries path with
      | none => .error ENOENT
      | some node => .ok node

/-- Path resolution in a filesystem. -/
def FS.walk (fs : FS) (path : String) : Except Nat Node :=
  walkPath fs.entries path

/-- The directory entry a path names, if any: the result of a successful walk. -/
def FS.lookup (fs : FS) (path : String) : Option Node :=
  match fs.walk path with
  | .ok node => some node
  | .error _ => none

/-- Size reported for an entry: the data length of a regular file. -/
def FS.size (fs : FS) : Node → Nat
  | .regular ino => (fs.inodes ino).length
  | .symlink target => target.length
  | _ => 0

/-- Follow symbolic links from a path, at most `depth` of them. -/
def FS.resolve (fs : FS) : Nat → String → Except Nat Node
  | 0, _ => .error ELOOP
  | depth + 1, path =>
    match fs.walk path with
    | .error code => .error code
    | .ok (.symlink target) => fs.resolve depth target
    | .ok node => .ok node

def FS.setData (fs : FS) (ino : Nat) (data : List Nat) : FS :=
  { fs with inodes := fun i => if i = ino then data else fs.inodes i }

def FS.unlink (fs : FS) (path : String) : FS :=
  { fs with entries := fun p => if p = path then none else fs.entries p }

/-! ## World -/

/-- An open file description. -/
structure Handle where
  ino : Nat
  flag : Nat
  offset : Nat
  closed : Bool
deriving DecidableEq, Repr

/-- Go `*os.File`. -/
structure File where
  fd : Nat
  name : String
deriving DecidableEq, Repr

/-- A primitive call. -/
inductive Op where
  | lstat (name : String)
  | stat (name : String)
  | openFile (name : String) (flag : Nat) (perm : Nat)
  | seek (fd : Nat) (offset : Int) (whence : Nat)
  | copyN (fd : Nat) (n : Nat)
  | sync (fd : Nat)
  | close (fd : Nat)
  | remove (name : String)
deriving DecidableEq, Repr

/-- A primitive call with its outcome: `none` for success. -/
structure Call where
  op : Op
  err : Option Error
deriving DecidableEq, Repr

/-- A failure the environment injects into a call: the errno, and for a copy the number of
bytes that get through before the failure. -/
structure Fault where
  code : Nat
  progress : Nat
deriving DecidableEq, Repr

structure World where
  fs : FS
  handles : Nat → Option Handle
  nextFd : Nat
  trace : List Call
  fault : Nat → Option Fault
  rand : Nat → Nat
  randPos : Nat

/-- The fault the environment injects into the next call. -/
def World.faultNow (w : World) : Option Fault :=
  w.fault w.trace.length

def World.record (w : World) (op : Op) (err : Option Error) : World :=
  { w with trace := w.trace ++ [⟨op, err⟩] }

def World.setHandle (w : World) (fd : Nat) (h : Handle) : World :=
  { w with handles := fun i => if i = fd then some h else w.handles i }

/-! ## Primitives -/

def O_RDONLY : Nat := 0
def O_WRONLY : Nat := 1
def O_RDWR : Nat := 2
def O_CREATE : Nat := 64
def O_TRUNC : Nat := 512
def O_APPEND : Nat := 1024

/-- Go `os.Lstat`: the metadata of the entry the path itself names; links are not followed. -/
def Lstat (name : String) (w : World) : Except Error FileInfo × World :=
  match w.faultNow with
  | some f =>
    let err := Error.pathError "lstat" name (.errno f.code)
    (.error err, w.record (.lstat name) (some err))
  | none =>
    match w.fs.walk name with
    | .error code =>
      let err := Error.pathError "lstat" name (.errno code)
      (.error err, w.record (.lstat name) (some err))
    | .ok node => (.ok ⟨node.mode, w.fs.size node⟩, w.record (.lstat name) none)

/-- Go `os.Stat`: as `Lstat`, after following symbolic links. -/
def Stat (name : String) (w : World) : Except Error FileInfo × World :=
  match w.faultNow with
  | some f =>
    let err := Error.pathError "stat" name (.errno f.code)
    (.error err, w.record (.stat name) (some err))
  | none =>
    match w.fs.resolve 40 name with
    | .error code =>
      let err := Error.pathError "stat" name (.errno code)
      (.error err, w.record (.stat name) (some err))
    | .ok node => (.ok ⟨node.mode, w.fs.size node⟩, w.record (.stat name) none)

/-- Go `os.OpenFile` on an existing file (creation is not modelled). Links are followed; only a
regular file can be opened; `O_TRUNC` empties the file. -/
def OpenFile (name : String) (flag : Nat) (perm : Nat) (w : World) :
    Except Error File × World :=
  let fail := fun (code : Nat) =>
    let err := Error.pathError "open" name (.errno code)
    ((.error err : Except Error File), w.record (.openFile name flag perm) (some err))
  match w.faultNow with
  | some f => fail f.code
  | none =>
    match w.fs.resolve 40 name with
    | .error code => fail code
    | .ok (.regular ino) =>
      let fs := if flag &&& O_TRUNC = 0 then w.fs else w.fs.setData ino []
      let w1 := { w with fs := fs, nextFd := w.nextFd + 1 }
      let w2 := w1.setHandle w.nextFd ⟨ino, flag, 0, false⟩
      (.ok ⟨w.nextFd, name⟩, w2.record (.openFile name flag perm) none)
    | .ok .directory => fail EISDIR
    | .ok _ => fail EINVAL

/-- The open handle behind a file, or `os.ErrClosed`. -/
def File.handle (f : File) (op : String) (w : World) : Except Error Handle :=
  match w.handles f.fd with
  | none => .error (.pathError op f.name ErrClosed)
  | some h => if h.closed then .error (.pathError op f.name ErrClosed) else .ok h

/-- Go `(*os.File).Seek`. -/
def File.Seek (f : File) (offset : Int) (whence : Nat) (w : World) :
    Except Error Int × World :=
  let fail := fun (err : Error) =>
    ((.error err : Except Error Int), w.record (.seek f.fd offset whence) (some err))
  match f.handle "seek" w with
  | .error err => fail err
  | .ok h =>
    match w.faultNow with
    | some flt => fail (.pathError "seek" f.name (.errno flt.code))
    | none =>
      let base : Int :=
        if whence = 0 then 0
        else if whence = 1 then h.offset
        else (w.fs.inodes h.ino).length
      let pos := base + offset
      if 2 < whence ∨ pos < 0 then fail (.pathError "seek" f.name (.errno EINVAL))
      else
        ((.ok pos), (w.setHandle f.fd { h with offset := pos.toNat }).record
          (.seek f.fd offset whence) none)

/-- The bytes of a file after writing `bytes` at offset `off`; a gap is filled with zeros. -/
def writeAt (data : List Nat) (off : Nat) (bytes : List Nat) : List Nat :=
  (data ++ List.replicate (off - data.length) 0).take off ++ bytes
    ++ data.drop (off + bytes.length)

/-- The next `n` bytes of the random source from position `pos`. -/
def randomBytes (rand : Nat → Nat) (pos : Nat) (n : Nat) : List Nat :=
  (List.range n).map (fun k => rand (pos + k) % 256)

/-- Go `io.Copy(dst, io.LimitReader(rand.Reader, n))` without the trace record: the number of
bytes written and the error that stopped the copy. An injected fault stops the copy after
`progress` bytes, if the copy gets that far. -/
def ioCopy (dst : File) (n : Nat) (w : World) : Nat × Option Error × World :=
  match dst.handle "write" w with
  | .error err => (0, some err, w)
  | .ok h =>
    if h.flag % 4 = O_RDONLY then (0, some (.pathError "write" dst.name (.errno EBADF)), w)
    else
      let count := match w.faultNow with
        | some flt => min flt.progress n
        | none => n
      let err := match w.faultNow with
        | some flt => some (Error.pathError "write" dst.name (.errno flt.code))
        | none => none
      let data := w.fs.inodes h.ino
      let off := if h.flag &&& O_APPEND = 0 then h.offset else data.length
      let bytes := randomBytes w.rand w.randPos count
      let w1 := { w with fs := w.fs.setData h.ino (writeAt data off bytes),
                         randPos := w.randPos + count }
      (count, err, w1.setHandle dst.fd { h with offset := off + count })

/-- Go `io.CopyN(dst, rand.Reader, n)`: success exactly when all `n` bytes were written. -/
def CopyN (dst : File) (n : Nat) (w : World) : (Nat × Option Error) × World :=
  match ioCopy dst n w with
  | (written, err, w1) =>
    if written = n then ((n, none), w1.record (.copyN dst.fd n) none)
    else ((written, err), w1.record (.copyN dst.fd n) err)

/-- Go `(*os.File).Sync`. -/
def File.Sync (f : File) (w : World) : Option Error × World :=
  match f.handle "sync" w with
  | .error err => (some err, w.record (.sync f.fd) (some err))
  | .ok _ =>
    match w.faultNow with
    | some flt =>
      let err := Error.pathError "sync" f.name (.errno flt.code)
      (some err, w.record (.sync f.fd) (some err))
    | none => (none, w.record (.sync f.fd) none)

/-- Go `(*os.File).Close`: the handle is released even when the close reports an error. -/
def File.Close (f : File) (w : World) : Option Error × World :=
  match f.handle "close" w with
  | .error err => (some err, w.record (.close f.fd) (some err))
  | .ok h =>
    let w1 := w.setHandle f.fd { h with closed := true }
    match w.faultNow with
    | some flt =>
      let err := Error.pathError "close" f.name (.errno flt.code)
      (some err, w1.record (.close f.fd) (some err))
    | none => (none, w1.record (.close f.fd) none)

/-- Go `os.Remove`: removes the directory entry; the inode data stays, reachable through any
other entry. -/
def Remove (name : String) (w : World) : Option Error × World :=
  let fail := fun (code : Nat) =>
    let err := Error.pathError "remove" name (.errno code)
    (some err, w.record (.remove name) (some err))
  match w.faultNow with
  | some flt => fail flt.code
  | none =>
    match w.fs.walk name with
    | .error code => fail code
    | .ok _ => (none, { w with fs := w.fs.unlink name }.record (.remove name) none)

/-! ## The program -/

def numberPasses : Nat := 3

/-- One iteration of the loop body of `Shred`: seek to the start, overwrite, sync. -/
def pass (file : File) (size : Nat) (w : World) : Option Error × World :=
  match file.Seek 0 0 w with
  | (.error err, w1) => (some (Errorf "failed to seek file: " err), w1)
  | (.ok _, w1) =>
    match CopyN file size w1 with
    | ((_, some err), w2) => (some (Errorf "failed to overwrite file: " err), w2)
    | ((_, none), w2) =>
      match file.Sync w2 with
      | (some err, w3) => (some (Errorf "failed to sync file: " err), w3)
      | (none, w3) => (none, w3)

/-- The loop `for i := 0; i < numberPasses; i++` of `Shred`, by the number of iterations
left; an error returns from the function at once. -/
def passes (file : File) (size : Nat) : Nat → World → Option Error × World
  | 0, w => (none, w)
  | left + 1, w =>
    match pass file size w with
    | (some err, w1) => (some err, w1)
    | (none, w1) => passes file size left w1

/-- The statements of `Shred` after the deferred function is registered: the returned error,
the value of the variable `file` on return (`none` for nil), and the world. -/
def shredOpened (path : String) (size : Nat) (file : File) (w : World) :
    Option Error × Option File × World :=
  match passes file size numberPasses w with
  | (some err, w1) => (some err, some file, w1)
  | (none, w1) =>
    match file.Close w1 with
    | (some err, w2) => (some (Errorf "failed to close file: " err), none, w2)
    | (none, w2) =>
      match Remove path w2 with
      | (some err, w3) => (some (Errorf "failed to delete file: " err), none, w3)
      | (none, w3) => (none, none, w3)

/-- The deferred function of `Shred`: closes `file` if it is not nil, discarding the result. -/
def deferredClose (file : Option File) (w : World) : World :=
  match file with
  | some f => (f.Close w).2
  | none => w

/-- The function `Shred` of the source: the returned error (`none` for nil) and the world. -/
def Shred (path : String) (w : World) : Option Error × World :=
  match Lstat path w with
  | (.error err, w1) =>
    if IsNotExist err then (some err, w1)
    else (some (Errorf "failed to get file information: " err), w1)
  | (.ok info, w1) =>
    if !IsRegular info.Mode then (some (.errorString "unsupported file type"), w1)
    else
      match OpenFile path O_WRONLY 0 w1 with
      | (.error err, w2) => (some (Errorf "failed to open file: " err), w2)
      | (.ok file, w2) =>
        match shredOpened path info.Size file w2 with
        | (ret, fileVar, w3) => (ret, deferredClose fileVar w3)

/-! ## Definitions used in the statements and proofs -/

/-- The three calls of one pass. -/
def passOps (fd : Nat) (size : Nat) : List Op :=
  [.seek fd 0 0, .copyN fd size, .sync fd]

/-- Calls that all succeeded. -/
def okCalls (ops : List Op) : List Call :=
  ops.map (fun op => ⟨op, none⟩)

/-- The world after one pass in which the three calls succeed. -/
def World.afterPass (w : World) (fd : Nat) (h : Handle) (size : Nat) : World :=
  { w with
    fs := w.fs.setData h.ino (randomBytes w.rand w.randPos size)
    randPos := w.randPos + size
    handles := fun i => if i = fd then some { h with offset := size } else w.handles i
    trace := w.trace ++ okCalls (passOps fd size) }

/-- A copy call goes through: no fault, or a fault that comes after the last byte. -/
def copyPasses (flt : Option Fault) (size : Nat) : Prop :=
  ∀ f, flt = some f → size ≤ f.progress

/-- The world after a copy that wrote `count` bytes. -/
def World.afterCopy (w : World) (fd : Nat) (h : Handle) (count : Nat) : World :=
  { w with
    fs := w.fs.setData h.ino
      (writeAt (w.fs.inodes h.ino) h.offset (randomBytes w.rand w.randPos count))
    randPos := w.randPos + count
    handles := fun i => if i = fd then some { h with offset := h.offset + count }
      else w.handles i }

/-- The calls of `n` passes. -/
def passOpsN (fd : Nat) (size : Nat) : Nat → List Op
  | 0 => []
  | n + 1 => passOps fd size ++ passOpsN fd size n

/-- The `j`-th call of the loop goes through, counting from the world at the loop's start. -/
def stepOk (w : World) (size : Nat) (j : Nat) : Prop :=
  if j % 3 = 1 then copyPasses (w.fault (w.trace.length + j)) size
  else w.fault (w.trace.length + j) = none

/-- The context that `Shred` puts before the error of the `j`-th call of the loop. -/
def stepContext (j : Nat) : String :=
  if j % 3 = 0 then "failed to seek file: "
  else if j % 3 = 1 then "failed to overwrite file: "
  else "failed to sync file: "

/-- The operation name in the error of the `j`-th call of the loop. -/
def stepName (j : Nat) : String :=
  if j % 3 = 0 then "seek" else if j % 3 = 1 then "write" else "sync"

/-- The `j`-th call of the loop. -/
def stepOp (fd : Nat) (size : Nat) (j : Nat) : Op :=
  if j % 3 = 0 then .seek fd 0 0 else if j % 3 = 1 then .copyN fd size else .sync fd

/-- What the loop keeps: the directory entries, the environment, and the open handle. -/
structure Kept (fd : Nat) (ino : Nat) (w w1 : World) : Prop where
  entries : w1.fs.entries = w.fs.entries
  fault : w1.fault = w.fault
  rand : w1.rand = w.rand
  handle : ∃ h1, w1.handles fd = some h1 ∧ h1.closed = false ∧ h1.flag = O_WRONLY ∧ h1.ino = ino
  others : ∀ i, i ≠ fd → w1.handles i = w.handles i

/-- The outcome of a close call under the fault the environment injects, if any. -/
def closeErr (name : String) (flt : Option Fault) : Option Error :=
  flt.map (fun f => .pathError "close" name (.errno f.code))

/-- The world after a successful `Lstat` and `OpenFile` of a regular file. -/
def World.opened (w : World) (path : String) (ino : Nat) : World :=
  { w with
    nextFd := w.nextFd + 1
    handles := fun i => if i = w.nextFd then some ⟨ino, O_WRONLY, 0, false⟩ else w.handles i
    trace := w.trace ++ [⟨.lstat path, none⟩, ⟨.openFile path O_WRONLY 0, none⟩] }

/-- The calls of a run of `Shred` in which every call succeeds. -/
def shredOps (path : String) (fd : Nat) (size : Nat) : List Op :=
  [.lstat path, .openFile path O_WRONLY 0] ++ passOpsN fd size numberPasses
    ++ [.close fd, .remove path]

/-- The `k`-th call of a run of `Shred` is one of the three copies. -/
def isCopyCall (k : Nat) : Prop :=
  2 ≤ k ∧ k < 11 ∧ k % 3 = 0

instance (k : Nat) : Decidable (isCopyCall k) := by
  unfold isCopyCall
  infer_instance

/-- The `k`-th call of a run of `Shred` goes through, counting from the world at the start. -/
def callOk (w : World) (size : Nat) (k : Nat) : Prop :=
  if isCopyCall k then copyPasses (w.fault (w.trace.length + k)) size
  else w.fault (w.trace.length + k) = none

/-- The context that `Shred` puts before the error of its `k`-th call, for `k ≥ 1`. -/
def callContext (k : Nat) : String :=
  if k = 1 then "failed to open file: "
  else if k = 11 then "failed to close file: "
  else if k = 12 then "failed to delete file: "
  else stepContext (k - 2)

/-- The operation name in the error of the `k`-th call of `Shred`. -/
def callName (k : Nat) : String :=
  if k = 0 then "lstat"
  else if k = 1 then "open"
  else if k = 11 then "close"
  else if k = 12 then "remove"
  else stepName (k - 2)

/-- The `k`-th call of a run of `Shred` whose earlier calls succeeded. -/
def callOp (path : String) (fd : Nat) (size : Nat) (k : Nat) : Op :=
  if k = 0 then .lstat path
  else if k = 1 then .openFile path O_WRONLY 0
  else if k = 11 then .close fd
  else if k = 12 then .remove path
  else stepOp fd size (k - 2)

/-- The call the deferred function makes when the `k`-th call has failed: a close, when the
failure is inside the loop. -/
def deferredCalls (path : String) (fd : Nat) (w : World) (k : Nat) : List Call :=
  if 2 ≤ k ∧ k < 11 then [⟨.close fd, closeErr path (w.fault (w.trace.length + k + 1))⟩]
  else []

/-- The calls that a run from world `w` to world `w1` has added to the trace. -/
def newCalls (w w1 : World) : List Call :=
  w1.trace.drop w.trace.length

/-- The bytes read through a path that names a regular file. -/
def FS.content (fs : FS) (path : String) : Option (List Nat) :=
  match fs.lookup path with
  | some (.regular ino) => some (fs.inodes ino)
  | _ => none

/-- The operation is a close. -/
def Op.isClose : Op → Bool
  | .close _ => true
  | _ => false

/-- Every call satisfying `p` comes after a call satisfying `q`. -/
def guarded (p q : Call → Bool) : List Call → Bool
  | [] => true
  | c :: rest => !p c && (q c || guarded p q rest)

/-- The operation is an `Lstat`. -/
def Op.isLstat : Op → Bool
  | .lstat _ => true
  | _ => false

/-- The context that `Shred` puts before the error of a failed call of each kind
(`shred.go` lines 41, 52, 66, 71, 78, 86, 90); `Shred` makes no `Stat` call. -/
def failureContext : Op → String
  | .lstat _ => "failed to get file information: "
  | .stat _ => ""
  | .openFile _ _ _ => "failed to open file: "
  | .seek _ _ _ => "failed to seek file: "
  | .copyN _ _ => "failed to overwrite file: "
  | .sync _ => "failed to sync file: "
  | .close _ => "failed to close file: "
  | .remove _ => "failed to delete file: "

/-- The error `e` of a failed call is returned to the caller: the returned error is `e`
itself, or an error made by `Errorf` from a context and `e`. -/
def Returned (ret : Option Error) (e : Error) : Prop :=
  ret = some e ∨ ∃ context, ret = some (Errorf context e)

/-! ## Example worlds -/

/-- A world with one regular file `f` of three bytes, a hard link `g` to it, a directory `d`
and a symbolic link `s` to `f`. -/
def demoFS : FS where
  entries := fun p =>
    if p = "f" then some (.regular 7)
    else if p = "g" then some (.regular 7)
    else if p = "d" then some .directory
    else if p = "s" then some (.symlink "f")
    else none
  inodes := fun i => if i = 7 then [1, 2, 3] else []

/-- The example filesystem with no open handle, an empty trace, a given fault schedule and
the random stream 10, 11, 12, ... -/
def demoWorld (fault : Nat → Option Fault) : World where
  fs := demoFS
  handles := fun _ => none
  nextFd := 3
  trace := []
  fault := fault
  rand := fun k => 10 + k
  randPos := 0

/-- The environment that injects no fault. -/
def noFault : Nat → Option Fault := fun _ => none

/-- The environment in which only the second call, the open, fails: permission denied. -/
def openDenied : Nat → Option Fault :=
  fun k => if k = 1 then some ⟨EACCES, 0⟩ else none

/-- The environment in which only the copy of the second pass fails, after one byte. -/
def secondCopyFails : Nat → Option Fault :=
  fun k => if k = 6 then some ⟨ENOSPC, 1⟩ else none

/-- The environment in which the first seek fails with an I/O error and the close that the
deferred function then makes fails too. -/
def seekAndCloseFail : Nat → Option Fault :=
  fun k => if k = 2 then some ⟨ EIO, 0⟩ else if k = 3 then some ⟨ENOSPC, 0⟩ else none

/-- The environment in which only the thirteenth call, the remove, fails. -/
def removeFails : Nat → Option Fault :=
  fun k => if k = 12 then some ⟨ EIO, 0⟩ else none

/-! ## Path resolution -/

theorem lookup_some (fs : FS) (path : String) (node : Node) :
    fs.lookup path = some node ↔ fs.walk path = .ok node := by
  unfold FS.lookup
  cases fs.walk path <;> simp

theorem lookup_none (fs : FS) (path : String) (h : fs.lookup path = none) :
    ∃ code, fs.walk path = .error code := by
  unfold FS.lookup at h
  cases hw : fs.walk path with
  | error code => exact ⟨code, rfl⟩
  | ok node => rw [hw] at h; cases h

theorem lookup_of_walk_error (fs : FS) (path : String) (code : Nat)
    (h : fs.walk path = .error code) : fs.lookup path = none := by
  simp [FS.lookup, h]

theorem lookup_entries (fs1 fs2 : FS) (h : fs1.entries = fs2.entries) (path : String) :
    fs1.lookup path = fs2.lookup path := by
  simp [FS.lookup, FS.walk, h]

theorem walk_empty (fs : FS) : fs.walk "" = .error ENOENT := by
  simp [FS.walk, walkPath]

theorem walkPath_ok (entries : String → Option Node) (path : String) (node : Node)
    (h : walkPath entries path = .ok node) :
    path ≠ "" ∧ ¬ (PATH_MAX ≤ path.length ∨ componentTooLong path.data 0 = true)
      ∧ ancestorError entries (ancestors path) = none ∧ entries path = some node := by
  unfold walkPath at h
  split at h
  · cases h
  · rename_i hne
    split at h
    · cases h
    · rename_i hlen
      split at h
      · cases h
      · rename_i hanc
        split at h
        · cases h
        · rename_i n hn
          cases h
          exact ⟨hne, hlen, hanc, hn⟩

theorem followLinks_unlink (entries : String → Option Node) (path : String) (ino : Nat)
    (hp : entries path = some (.regular ino)) :
    ∀ (depth : Nat) (name : String), followLinks entries depth name = .ok .directory →
      followLinks (fun p => if p = path then none else entries p) depth name
        = .ok .directory := by
  intro depth
  induction depth with
  | zero =>
    intro name h
    simp [followLinks] at h
  | succ depth ih =>
    intro name h
    by_cases hn : name = path
    · subst hn
      simp [followLinks, hp] at h
    · simp only [followLinks, hn, if_false] at h ⊢
      cases he : entries name with
      | none => rw [he] at h; cases h
      | some node =>
        rw [he] at h
        cases node with
        | symlink target => exact ih target h
        | regular i => exact h
        | directory => exact h
        | device => exact h
        | charDevice => exact h
        | namedPipe => exact h
        | socket => exact h

theorem ancestorError_unlink (entries : String → Option Node) (path : String) (ino : Nat)
    (hp : entries path = some (.regular ino)) :
    ∀ names : List String, ancestorError entries names = none →
      ancestorError (fun p => if p = path then none else entries p) names = none := by
  intro names
  induction names with
  | nil => intro _; rfl
  | cons name rest ih =>
    intro h
    simp only [ancestorError] at h ⊢
    cases hf : followLinks entries 40 name with
    | error code => rw [hf] at h; cases h
    | ok node =>
      rw [hf] at h
      cases node with
      | directory =>
        rw [followLinks_unlink entries path ino hp 40 name hf]
        exact ih h
      | regular i => cases h
      | symlink t => cases h
      | device => cases h
      | charDevice => cases h
      | namedPipe => cases h
      | socket => cases h

/-- After the entry of a regular file is removed, a walk to its path finds nothing there:
the ancestors are still directories, so the answer is `ENOENT`. -/
theorem walk_unlink_self (fs : FS) (path : String) (ino : Nat)
    (h : fs.walk path = .ok (.regular ino)) :
    (fs.unlink path).walk path = .error ENOENT := by
  obtain ⟨hne, hlen, hanc, hp⟩ := walkPath_ok fs.entries path _ h
  have ha := ancestorError_unlink fs.entries path ino hp _ hanc
  simp only [FS.walk, FS.unlink, walkPath, hne, hlen, if_false, ha]
  simp

/-- Removing the entry of a regular file leaves every other path resolving as before. -/
theorem walk_unlink_other (fs : FS) (path link : String) (ino : Nat) (node : Node)
    (h : fs.walk path = .ok (.regular ino)) (hne : link ≠ path)
    (hlink : fs.walk link = .ok node) :
    (fs.unlink path).walk link = .ok node := by
  obtain ⟨_, _, _, hp⟩ := walkPath_ok fs.entries path _ h
  obtain ⟨hle, hlen, hanc, hl⟩ := walkPath_ok fs.entries link _ hlink
  have ha := ancestorError_unlink fs.entries path ino hp _ hanc
  simp only [FS.walk, FS.unlink, walkPath, hle, hlen, if_false, ha, hne]
  simp [hl]

/-! ## Symbolic execution of the primitives and of the loop -/

theorem randomBytes_length (rand : Nat → Nat) (pos n : Nat) :
    (randomBytes rand pos n).length = n := by
  simp [randomBytes]

theorem writeAt_zero_full (data bytes : List Nat) (h : bytes.length = data.length) :
    writeAt data 0 bytes = bytes := by
  simp [writeAt, h]

theorem handle_open (f : File) (op : String) (w : World) (h : Handle)
    (hh : w.handles f.fd = some h) (hc : h.closed = false) : f.handle op w = .ok h := by
  simp [File.handle, hh, hc]

theorem Seek_ok (file : File) (w : World) (h : Handle)
    (hh : w.handles file.fd = some h) (hc : h.closed = false)
    (f0 : w.fault w.trace.length = none) :
    file.Seek 0 0 w = (.ok 0, (w.setHandle file.fd { h with offset := 0 }).record
      (.seek file.fd 0 0) none) := by
  simp [File.Seek, handle_open file "seek" w h hh hc, World.faultNow, f0]

theorem Seek_fail (file : File) (w : World) (h : Handle) (flt : Fault)
    (hh : w.handles file.fd = some h) (hc : h.closed = false)
    (f0 : w.fault w.trace.length = some flt) :
    file.Seek 0 0 w = (.error (.pathError "seek" file.name (.errno flt.code)),
      w.record (.seek file.fd 0 0) (some (.pathError "seek" file.name (.errno flt.code)))) := by
  simp [File.Seek, handle_open file "seek" w h hh hc, World.faultNow, f0]

theorem CopyN_ok (file : File) (size : Nat) (w : World) (h : Handle)
    (hh : w.handles file.fd = some h) (hc : h.closed = false) (hf : h.flag = O_WRONLY)
    (f0 : copyPasses (w.fault w.trace.length) size) :
    CopyN file size w = ((size, none), (w.afterCopy file.fd h size).record
      (.copyN file.fd size) none) := by
  have hcount : (match w.faultNow with
      | some flt => min flt.progress size
      | none => size) = size := by
    unfold World.faultNow
    cases hflt : w.fault w.trace.length with
    | none => rfl
    | some flt => simpa using f0 flt hflt
  simp only [CopyN, ioCopy, handle_open file "write" w h hh hc, hf, hcount]
  simp [O_WRONLY, O_RDONLY, O_APPEND, World.afterCopy, World.setHandle, hf]

theorem CopyN_fail (file : File) (size : Nat) (w : World) (h : Handle) (flt : Fault)
    (hh : w.handles file.fd = some h) (hc : h.closed = false) (hf : h.flag = O_WRONLY)
    (f0 : w.fault w.trace.length = some flt) (hlt : flt.progress < size) :
    CopyN file size w =
      ((flt.progress, some (.pathError "write" file.name (.errno flt.code))),
        (w.afterCopy file.fd h flt.progress).record (.copyN file.fd size)
          (some (.pathError "write" file.name (.errno flt.code)))) := by
  have hmin : min flt.progress size = flt.progress := by omega
  have hne : flt.progress ≠ size := by omega
  simp only [CopyN, ioCopy, handle_open file "write" w h hh hc, hf, World.faultNow, f0, hmin]
  simp [O_WRONLY, O_RDONLY, O_APPEND, World.afterCopy, World.setHandle, hf, hne]

theorem Sync_ok (file : File) (w : World) (h : Handle)
    (hh : w.handles file.fd = some h) (hc : h.closed = false)
    (f0 : w.fault w.trace.length = none) :
    file.Sync w = (none, w.record (.sync file.fd) none) := by
  simp [File.Sync, handle_open file "sync" w h hh hc, World.faultNow, f0]

theorem Sync_fail (file : File) (w : World) (h : Handle) (flt : Fault)
    (hh : w.handles file.fd = some h) (hc : h.closed = false)
    (f0 : w.fault w.trace.length = some flt) :
    file.Sync w = (some (.pathError "sync" file.name (.errno flt.code)),
      w.record (.sync file.fd) (some (.pathError "sync" file.name (.errno flt.code)))) := by
  simp [File.Sync, handle_open file "sync" w h hh hc, World.faultNow, f0]

theorem Close_ok (file : File) (w : World) (h : Handle)
    (hh : w.handles file.fd = some h) (hc : h.closed = false)
    (f0 : w.fault w.trace.length = none) :
    file.Close w = (none, (w.setHandle file.fd { h with closed := true }).record
      (.close file.fd) none) := by
  simp [File.Close, handle_open file "close" w h hh hc, World.faultNow, f0]

theorem Close_fail (file : File) (w : World) (h : Handle) (flt : Fault)
    (hh : w.handles file.fd = some h) (hc : h.closed = false)
    (f0 : w.fault w.trace.length = some flt) :
    file.Close w = (some (.pathError "close" file.name (.errno flt.code)),
      (w.setHandle file.fd { h with closed := true }).record (.close file.fd)
        (some (.pathError "close" file.name (.errno flt.code)))) := by
  simp [File.Close, handle_open file "close" w h hh hc, World.faultNow, f0]

theorem Remove_ok (name : String) (w : World) (node : Node)
    (hn : w.fs.lookup name = some node) (f0 : w.fault w.trace.length = none) :
    Remove name w = (none, { w with fs := w.fs.unlink name }.record (.remove name) none) := by
  simp [Remove, World.faultNow, f0, (lookup_some _ _ _).mp hn]

theorem Remove_fail (name : String) (w : World) (flt : Fault)
    (f0 : w.fault w.trace.length = some flt) :
    Remove name w = (some (.pathError "remove" name (.errno flt.code)),
      w.record (.remove name) (some (.pathError "remove" name (.errno flt.code)))) := by
  simp [Remove, World.faultNow, f0]

theorem pass_ok (file : File) (size : Nat) (w : World) (h : Handle)
    (hh : w.handles file.fd = some h) (hc : h.closed = false) (hf : h.flag = O_WRONLY)
    (hsz : (w.fs.inodes h.ino).length = size)
    (f0 : w.fault w.trace.length = none)
    (f1 : copyPasses (w.fault (w.trace.length + 1)) size)
    (f2 : w.fault (w.trace.length + 2) = none) :
    pass file size w = (none, w.afterPass file.fd h size) := by
  have hs := Seek_ok file w h hh hc f0
  have hcp := CopyN_ok file size ((w.setHandle file.fd { h with offset := 0 }).record
    (.seek file.fd 0 0) none) { h with offset := 0 }
    (by simp [World.setHandle, World.record]) hc hf
    (by simpa [World.setHandle, World.record] using f1)
  have hsy := Sync_ok file
    ((((w.setHandle file.fd { h with offset := 0 }).record (.seek file.fd 0 0) none).afterCopy
      file.fd { h with offset := 0 } size).record (.copyN file.fd size) none)
    { h with offset := 0 + size }
    (by simp [World.setHandle, World.record, World.afterCopy]) hc
    (by simpa [World.setHandle, World.record, World.afterCopy] using f2)
  simp only [pass, hs, hcp, hsy]
  have hw : writeAt (w.fs.inodes h.ino) 0 (randomBytes w.rand w.randPos size)
      = randomBytes w.rand w.randPos size :=
    writeAt_zero_full _ _ (by rw [randomBytes_length, hsz])
  simp [World.afterPass, World.afterCopy, World.setHandle, World.record, FS.setData, hw,
    okCalls, passOps]
  funext i
  by_cases hi : i = file.fd <;> simp [hi]

theorem pass_seek_fail (file : File) (size : Nat) (w : World) (h : Handle) (flt : Fault)
    (hh : w.handles file.fd = some h) (hc : h.closed = false)
    (f0 : w.fault w.trace.length = some flt) :
    pass file size w =
      (some (Errorf "failed to seek file: " (.pathError "seek" file.name (.errno flt.code))),
        w.record (.seek file.fd 0 0) (some (.pathError "seek" file.name (.errno flt.code)))) := by
  simp only [pass, Seek_fail file w h flt hh hc f0]

theorem pass_copy_fail (file : File) (size : Nat) (w : World) (h : Handle) (flt : Fault)
    (hh : w.handles file.fd = some h) (hc : h.closed = false) (hf : h.flag = O_WRONLY)
    (f0 : w.fault w.trace.length = none)
    (f1 : w.fault (w.trace.length + 1) = some flt) (hlt : flt.progress < size) :
    pass file size w =
      (some (Errorf "failed to overwrite file: "
          (.pathError "write" file.name (.errno flt.code))),
        (((w.setHandle file.fd { h with offset := 0 }).record (.seek file.fd 0 0) none).afterCopy
          file.fd { h with offset := 0 } flt.progress).record (.copyN file.fd size)
            (some (.pathError "write" file.name (.errno flt.code)))) := by
  have hs := Seek_ok file w h hh hc f0
  have hcp := CopyN_fail file size ((w.setHandle file.fd { h with offset := 0 }).record
    (.seek file.fd 0 0) none) { h with offset := 0 } flt
    (by simp [World.setHandle, World.record]) hc hf
    (by simpa [World.setHandle, World.record] using f1) hlt
  simp only [pass, hs, hcp]

theorem pass_sync_fail (file : File) (size : Nat) (w : World) (h : Handle) (flt : Fault)
    (hh : w.handles file.fd = some h) (hc : h.closed = false) (hf : h.flag = O_WRONLY)
    (f0 : w.fault w.trace.length = none)
    (f1 : copyPasses (w.fault (w.trace.length + 1)) size)
    (f2 : w.fault (w.trace.length + 2) = some flt) :
    pass file size w =
      (some (Errorf "failed to sync file: " (.pathError "sync" file.name (.errno flt.code))),
        ((((w.setHandle file.fd { h with offset := 0 }).record (.seek file.fd 0 0) none).afterCopy
          file.fd { h with offset := 0 } size).record (.copyN file.fd size) none).record
            (.sync file.fd) (some (.pathError "sync" file.name (.errno flt.code)))) := by
  have hs := Seek_ok file w h hh hc f0
  have hcp := CopyN_ok file size ((w.setHandle file.fd { h with offset := 0 }).record
    (.seek file.fd 0 0) none) { h with offset := 0 }
    (by simp [World.setHandle, World.record]) hc hf
    (by simpa [World.setHandle, World.record] using f1)
  have hsy := Sync_fail file
    ((((w.setHandle file.fd { h with offset := 0 }).record (.seek file.fd 0 0) none).afterCopy
      file.fd { h with offset := 0 } size).record (.copyN file.fd size) none)
    { h with offset := 0 + size } flt
    (by simp [World.setHandle, World.record, World.afterCopy]) hc
    (by simpa [World.setHandle, World.record, World.afterCopy] using f2)
  simp only [pass, hs, hcp, hsy]

theorem passes_ok (file : File) (size : Nat) (n : Nat) :
    ∀ (w : World) (h : Handle), w.handles file.fd = some h → h.closed = false →
      h.flag = O_WRONLY → (w.fs.inodes h.ino).length = size →
      (∀ j, j < 3 * n → stepOk w size j) →
      ∃ w1, passes file size n w = (none, w1)
        ∧ w1.trace = w.trace ++ okCalls (passOpsN file.fd size n)
        ∧ Kept file.fd h.ino w w1
        ∧ (w1.fs.inodes h.ino).length = size
        ∧ (0 < n → w1.fs.inodes h.ino = randomBytes w.rand (w.randPos + (n - 1) * size) size)
        ∧ w1.randPos = w.randPos + n * size := by
  induction n with
  | zero =>
    intro w h hh hc hf hsz _
    exact ⟨w, rfl, by simp [passOpsN, okCalls], ⟨rfl, rfl, rfl, ⟨h, hh, hc, hf, rfl⟩,
      fun _ _ => rfl⟩, hsz, by simp, by simp⟩
  | succ n ih =>
    intro w h hh hc hf hsz hok
    have h0 := hok 0 (by omega)
    have h1 := hok 1 (by omega)
    have h2 := hok 2 (by omega)
    simp only [stepOk] at h0 h1 h2
    have hp := pass_ok file size w h hh hc hf hsz (by simpa using h0) (by simpa using h1)
      (by simpa using h2)
    have hlen : (w.afterPass file.fd h size).trace.length = w.trace.length + 3 := by
      simp [World.afterPass, okCalls, passOps]
    obtain ⟨w1, hrun, htr, hk, hsz1, hdata, hpos⟩ :=
      ih (w.afterPass file.fd h size) { h with offset := size }
        (by simp [World.afterPass]) hc hf
        (by simp [World.afterPass, FS.setData, randomBytes_length])
        (by
          intro j hj
          have := hok (j + 3) (by omega)
          simp only [stepOk, hlen] at this ⊢
          have hm : (j + 3) % 3 = j % 3 := by omega
          rw [hm] at this
          have ha : w.trace.length + 3 + j = w.trace.length + (j + 3) := by omega
          rw [ha]
          simpa [World.afterPass] using this)
    refine ⟨w1, ?_, ?_, ?_, ?_, ?_, ?_⟩
    · simp only [passes, hp]
      exact hrun
    · rw [htr]
      simp [World.afterPass, passOpsN, okCalls]
    · obtain ⟨he, hfl, hr, ⟨h1', hh1, hc1, hf1, hi1⟩, ho⟩ := hk
      refine ⟨?_, ?_, ?_, ⟨h1', hh1, hc1, hf1, hi1⟩, ?_⟩
      · rw [he]; simp [World.afterPass, FS.setData]
      · rw [hfl]; simp [World.afterPass]
      · rw [hr]; simp [World.afterPass]
      · intro i hi
        rw [ho i hi]
        simp [World.afterPass, hi]
    · exact hsz1
    · intro _
      rcases Nat.eq_zero_or_pos n with hn | hn
      · subst hn
        simp only [passes] at hrun
        have hw : w1 = w.afterPass file.fd h size := by
          have := congrArg Prod.snd hrun
          exact this.symm
        subst hw
        simp [World.afterPass, FS.setData]
      · have := hdata hn
        simp only [World.afterPass] at this
        rw [this]
        congr 1
        have : n - 1 + 1 = n := by omega
        calc w.randPos + size + (n - 1) * size = w.randPos + (n - 1 + 1) * size := by ring
          _ = w.randPos + (n + 1 - 1) * size := by simp [this]
    · rw [hpos]
      simp [World.afterPass]
      ring

theorem pass_fail (file : File) (size : Nat) (w : World) (h : Handle) (flt : Fault) (j : Nat)
    (hh : w.handles file.fd = some h) (hc : h.closed = false) (hf : h.flag = O_WRONLY)
    (hj : j < 3) (hok : ∀ i, i < j → stepOk w size i)
    (hflt : w.fault (w.trace.length + j) = some flt) (hlt : j % 3 = 1 → flt.progress < size) :
    ∃ w1, pass file size w = (some (Errorf (stepContext j)
          (.pathError (stepName j) file.name (.errno flt.code))), w1)
      ∧ w1.trace = w.trace ++ okCalls ((passOps file.fd size).take j)
          ++ [⟨stepOp file.fd size j, some (.pathError (stepName j) file.name (.errno flt.code))⟩]
      ∧ Kept file.fd h.ino w w1 := by
  have hself : ∀ i, i ≠ file.fd → w.handles i = w.handles i := fun _ _ => rfl
  interval_cases j
  · refine ⟨_, pass_seek_fail file size w h flt hh hc (by simpa using hflt), ?_, ?_⟩
    · simp [World.record, okCalls, stepOp, stepName]
    · exact ⟨rfl, rfl, rfl, ⟨h, hh, hc, hf, rfl⟩, hself⟩
  · have h0 := hok 0 (by omega)
    simp only [stepOk] at h0
    refine ⟨_, pass_copy_fail file size w h flt hh hc hf (by simpa using h0) hflt
      (hlt (by norm_num)), ?_, ?_⟩
    · simp [World.record, World.afterCopy, World.setHandle, okCalls, passOps, stepOp, stepName]
    · refine ⟨by simp [World.record, World.afterCopy, World.setHandle, FS.setData], rfl, rfl,
        ⟨{ h with offset := 0 + flt.progress }, by simp [World.record, World.afterCopy], hc, hf,
          rfl⟩, ?_⟩
      intro i hi
      simp [World.record, World.afterCopy, World.setHandle, hi]
  · have h0 := hok 0 (by omega)
    have h1 := hok 1 (by omega)
    simp only [stepOk] at h0 h1
    refine ⟨_, pass_sync_fail file size w h flt hh hc hf (by simpa using h0)
      (by simpa using h1) hflt, ?_, ?_⟩
    · simp [World.record, World.afterCopy, World.setHandle, okCalls, passOps, stepOp, stepName]
    · refine ⟨by simp [World.record, World.afterCopy, World.setHandle, FS.setData], rfl, rfl,
        ⟨{ h with offset := 0 + size }, by simp [World.record, World.afterCopy], hc, hf,
          rfl⟩, ?_⟩
      intro i hi
      simp [World.record, World.afterCopy, World.setHandle, hi]

theorem Kept.trans {fd ino : Nat} {w w1 w2 : World} (h1 : Kept fd ino w w1)
    (h2 : Kept fd ino w1 w2) : Kept fd ino w w2 :=
  ⟨h2.entries.trans h1.entries, h2.fault.trans h1.fault, h2.rand.trans h1.rand, h2.handle,
    fun i hi => (h2.others i hi).trans (h1.others i hi)⟩

theorem afterPass_kept (file : File) (size : Nat) (w : World) (h : Handle)
    (hc : h.closed = false) (hf : h.flag = O_WRONLY) :
    Kept file.fd h.ino w (w.afterPass file.fd h size) :=
  ⟨by simp [World.afterPass, FS.setData], rfl, rfl,
    ⟨{ h with offset := size }, by simp [World.afterPass], hc, hf, rfl⟩,
    fun i hi => by simp [World.afterPass, hi]⟩

theorem passes_fail (file : File) (size : Nat) (flt : Fault) (n : Nat) :
    ∀ (w : World) (h : Handle) (j : Nat), w.handles file.fd = some h → h.closed = false →
      h.flag = O_WRONLY → (w.fs.inodes h.ino).length = size →
      j < 3 * n → (∀ i, i < j → stepOk w size i) →
      w.fault (w.trace.length + j) = some flt → (j % 3 = 1 → flt.progress < size) →
      ∃ w1, passes file size n w = (some (Errorf (stepContext j)
            (.pathError (stepName j) file.name (.errno flt.code))), w1)
        ∧ w1.trace = w.trace ++ okCalls ((passOpsN file.fd size n).take j)
            ++ [⟨stepOp file.fd size j,
                some (.pathError (stepName j) file.name (.errno flt.code))⟩]
        ∧ Kept file.fd h.ino w w1 := by
  induction n with
  | zero => intro w h j _ _ _ _ hj; omega
  | succ n ih =>
    intro w h j hh hc hf hsz hj hok hflt hlt
    by_cases hj3 : j < 3
    · obtain ⟨w1, hrun, htr, hk⟩ := pass_fail file size w h flt j hh hc hf hj3 hok hflt hlt
      refine ⟨w1, by simp only [passes, hrun], ?_, hk⟩
      rw [htr]
      have : ((passOpsN file.fd size (n + 1)).take j) = (passOps file.fd size).take j := by
        simp only [passOpsN]
        rw [List.take_append_of_le_length (by simp [passOps]; omega)]
      rw [this]
    · have h0 := hok 0 (by omega)
      have h1 := hok 1 (by omega)
      have h2 := hok 2 (by omega)
      simp only [stepOk] at h0 h1 h2
      have hp := pass_ok file size w h hh hc hf hsz (by simpa using h0) (by simpa using h1)
        (by simpa using h2)
      have hlen : (w.afterPass file.fd h size).trace.length = w.trace.length + 3 := by
        simp [World.afterPass, okCalls, passOps]
      have hm : (j - 3) % 3 = j % 3 := by omega
      obtain ⟨w1, hrun, htr, hk⟩ :=
        ih (w.afterPass file.fd h size) { h with offset := size } (j - 3)
          (by simp [World.afterPass]) hc hf
          (by simp [World.afterPass, FS.setData, randomBytes_length])
          (by omega)
          (by
            intro i hi
            have := hok (i + 3) (by omega)
            simp only [stepOk, hlen] at this ⊢
            have hm : (i + 3) % 3 = i % 3 := by omega
            rw [hm] at this
            have ha : w.trace.length + 3 + i = w.trace.length + (i + 3) := by omega
            rw [ha]
            simpa [World.afterPass] using this)
          (by
            rw [hlen]
            have ha : w.trace.length + 3 + (j - 3) = w.trace.length + j := by omega
            rw [ha]
            simpa [World.afterPass] using hflt)
          (by rw [hm]; exact hlt)
      have hctx : stepContext (j - 3) = stepContext j := by simp [stepContext, hm]
      have hnm : stepName (j - 3) = stepName j := by simp [stepName, hm]
      have hop : stepOp file.fd size (j - 3) = stepOp file.fd size j := by simp [stepOp, hm]
      simp only [hctx, hnm, hop] at hrun htr
      refine ⟨w1, ?_, ?_, (afterPass_kept file size w h hc hf).trans hk⟩
      · simp only [passes, hp]
        exact hrun
      · rw [htr]
        have : (passOpsN file.fd size (n + 1)).take j
            = passOps file.fd size ++ (passOpsN file.fd size n).take (j - 3) := by
          simp only [passOpsN]
          rw [List.take_append_eq_append_take]
          have hl : (passOps file.fd size).length = 3 := by simp [passOps]
          rw [hl, List.take_of_length_le (by rw [hl]; omega)]
        rw [this]
        simp [World.afterPass, okCalls]

theorem Close_run (file : File) (w : World) (h : Handle)
    (hh : w.handles file.fd = some h) (hc : h.closed = false) :
    file.Close w = (closeErr file.name (w.fault w.trace.length),
      (w.setHandle file.fd { h with closed := true }).record (.close file.fd)
        (closeErr file.name (w.fault w.trace.length))) := by
  cases hflt : w.fault w.trace.length with
  | none => simpa [closeErr] using Close_ok file w h hh hc hflt
  | some flt => simpa [closeErr] using Close_fail file w h flt hh hc hflt

theorem resolve_regular (fs : FS) (path : String) (ino : Nat) (depth : Nat)
    (h : fs.lookup path = some (.regular ino)) :
    fs.resolve (depth + 1) path = .ok (.regular ino) := by
  simp [FS.resolve, (lookup_some _ _ _).mp h]

theorem Lstat_ok (path : String) (w : World) (node : Node)
    (hl : w.fs.lookup path = some node) (f0 : w.fault w.trace.length = none) :
    Lstat path w = (.ok ⟨node.mode, w.fs.size node⟩, w.record (.lstat path) none) := by
  simp [Lstat, World.faultNow, f0, (lookup_some _ _ _).mp hl]

theorem Lstat_absent (path : String) (w : World) (code : Nat)
    (hw : w.fs.walk path = .error code) (f0 : w.fault w.trace.length = none) :
    Lstat path w = (.error (.pathError "lstat" path (.errno code)),
      w.record (.lstat path) (some (.pathError "lstat" path (.errno code)))) := by
  simp [Lstat, World.faultNow, f0, hw]

theorem Lstat_fail (path : String) (w : World) (flt : Fault)
    (f0 : w.fault w.trace.length = some flt) :
    Lstat path w = (.error (.pathError "lstat" path (.errno flt.code)),
      w.record (.lstat path) (some (.pathError "lstat" path (.errno flt.code)))) := by
  simp [Lstat, World.faultNow, f0]

/-- An `Lstat` changes nothing but the trace, where it records its outcome. -/
theorem Lstat_world (path : String) (w : World) :
    (Lstat path w).2 = w.record (.lstat path)
      (match (Lstat path w).1 with
        | .error e => some e
        | .ok _ => none) := by
  unfold Lstat
  cases w.faultNow with
  | some f => rfl
  | none =>
    cases w.fs.walk path with
    | error code => rfl
    | ok node => rfl

theorem OpenFile_ok (path : String) (w : World) (ino : Nat)
    (hl : w.fs.lookup path = some (.regular ino)) (f0 : w.fault w.trace.length = none) :
    OpenFile path O_WRONLY 0 w = (.ok ⟨w.nextFd, path⟩,
      ({ w with nextFd := w.nextFd + 1 }.setHandle w.nextFd ⟨ino, O_WRONLY, 0, false⟩).record
        (.openFile path O_WRONLY 0) none) := by
  have ht : O_WRONLY &&& O_TRUNC = 0 := by decide
  simp [OpenFile, World.faultNow, f0, resolve_regular w.fs path ino 39 hl, ht]

theorem OpenFile_fail (path : String) (flag perm : Nat) (w : World) (flt : Fault)
    (f0 : w.fault w.trace.length = some flt) :
    OpenFile path flag perm w = (.error (.pathError "open" path (.errno flt.code)),
      w.record (.openFile path flag perm) (some (.pathError "open" path (.errno flt.code)))) := by
  simp [OpenFile, World.faultNow, f0]

theorem isRegular_regular (ino : Nat) : IsRegular (Node.regular ino).mode = true := by
  simp [Node.mode, IsRegular]

theorem isRegular_iff (node : Node) : IsRegular node.mode = true ↔ ∃ ino, node = .regular ino := by
  cases node <;> simp [Node.mode] <;> decide

/-- With `Lstat` and `OpenFile` successful, `Shred` runs its body and then the deferred
close. -/
theorem Shred_opened (path : String) (w : World) (ino : Nat)
    (hl : w.fs.lookup path = some (.regular ino))
    (f0 : w.fault w.trace.length = none) (f1 : w.fault (w.trace.length + 1) = none) :
    Shred path w =
      ((shredOpened path (w.fs.inodes ino).length ⟨w.nextFd, path⟩ (w.opened path ino)).1,
        deferredClose
          (shredOpened path (w.fs.inodes ino).length ⟨w.nextFd, path⟩ (w.opened path ino)).2.1
          (shredOpened path (w.fs.inodes ino).length ⟨w.nextFd, path⟩ (w.opened path ino)).2.2)
    := by
  have ho := OpenFile_ok path (w.record (.lstat path) none) ino
    (by simpa [World.record] using hl) (by simpa [World.record] using f1)
  have hw : ({ (w.record (.lstat path) none) with
        nextFd := (w.record (.lstat path) none).nextFd + 1 }.setHandle
          (w.record (.lstat path) none).nextFd ⟨ino, O_WRONLY, 0, false⟩).record
        (.openFile path O_WRONLY 0) none = w.opened path ino := by
    simp [World.opened, World.record, World.setHandle]
  rw [hw] at ho
  simp only [Shred, Lstat_ok path w _ hl f0, isRegular_regular, ho, FS.size]
  simp [World.record]

theorem opened_trace_length (w : World) (path : String) (ino : Nat) :
    (w.opened path ino).trace.length = w.trace.length + 2 := by
  simp [World.opened]

theorem stepOk_opened (w : World) (path : String) (ino size j : Nat) (hj : j < 9)
    (h : callOk w size (j + 2)) : stepOk (w.opened path ino) size j := by
  simp only [stepOk, callOk, isCopyCall, opened_trace_length] at h ⊢
  have ha : w.trace.length + 2 + j = w.trace.length + (j + 2) := by omega
  have hiff : (2 ≤ j + 2 ∧ j + 2 < 11 ∧ (j + 2) % 3 = 0) ↔ j % 3 = 1 := by omega
  rw [ha]
  simp only [hiff] at h
  simpa [World.opened] using h

theorem callOk_of_none (w : World) (size k : Nat) (h : w.fault (w.trace.length + k) = none) :
    callOk w size k := by
  unfold callOk
  split
  · intro f hf
    rw [h] at hf
    cases hf
  · exact h

/-- A run of `Shred` on a regular file in which the `k`-th call, inside the loop, is the
first one to fail. -/
theorem Shred_pass_fail (path : String) (w : World) (ino : Nat) (flt : Fault) (k : Nat)
    (hl : w.fs.lookup path = some (.regular ino)) (hk : 2 ≤ k) (hk11 : k < 11)
    (hok : ∀ j, j < k → callOk w (w.fs.inodes ino).length j)
    (hflt : w.fault (w.trace.length + k) = some flt)
    (hlt : isCopyCall k → flt.progress < (w.fs.inodes ino).length) :
    ∃ w1, Shred path w = (some (Errorf (stepContext (k - 2))
          (.pathError (stepName (k - 2)) path (.errno flt.code))), w1)
      ∧ w1.trace = w.trace ++ okCalls ((shredOps path w.nextFd (w.fs.inodes ino).length).take k)
          ++ [⟨stepOp w.nextFd (w.fs.inodes ino).length (k - 2),
                some (.pathError (stepName (k - 2)) path (.errno flt.code))⟩,
              ⟨.close w.nextFd, closeErr path (w.fault (w.trace.length + k + 1))⟩]
      ∧ w1.fs.entries = w.fs.entries
      ∧ (∃ h1, w1.handles w.nextFd = some h1 ∧ h1.closed = true)
      ∧ (∀ i, i ≠ w.nextFd → w1.handles i = w.handles i) := by
  have f0 : w.fault w.trace.length = none := by
    have := hok 0 (by omega)
    simpa [callOk, isCopyCall] using this
  have f1 : w.fault (w.trace.length + 1) = none := by
    have := hok 1 (by omega)
    simpa [callOk, isCopyCall] using this
  obtain ⟨w1, hrun, htr, hkept⟩ :=
    passes_fail ⟨w.nextFd, path⟩ (w.fs.inodes ino).length flt 3 (w.opened path ino)
      ⟨ino, O_WRONLY, 0, false⟩ (k - 2) (by simp [World.opened]) rfl rfl
      (by simp [World.opened]) (by omega)
      (fun j hj => stepOk_opened w path ino _ j (by omega) (hok (j + 2) (by omega)))
      (by
        rw [opened_trace_length]
        have ha : w.trace.length + 2 + (k - 2) = w.trace.length + k := by omega
        rw [ha]
        simpa [World.opened] using hflt)
      (fun hm => hlt ⟨hk, hk11, by omega⟩)
  obtain ⟨he, hfl, _, ⟨h1, hh1, hc1, _, _⟩, ho⟩ := hkept
  have hlen : w1.trace.length = w.trace.length + k + 1 := by
    rw [htr]
    simp [World.opened, okCalls, passOpsN, passOps]
    omega
  have hso : shredOpened path (w.fs.inodes ino).length ⟨w.nextFd, path⟩ (w.opened path ino)
      = (some (Errorf (stepContext (k - 2))
          (.pathError (stepName (k - 2)) path (.errno flt.code))), some ⟨w.nextFd, path⟩, w1) := by
    simp only [shredOpened, numberPasses, hrun]
  have hcl := Close_run ⟨w.nextFd, path⟩ w1 h1 hh1 hc1
  have hfn : w1.fault w1.trace.length = w.fault (w.trace.length + k + 1) := by
    rw [hfl, hlen]
    simp [World.opened]
  rw [hfn] at hcl
  refine ⟨(w1.setHandle w.nextFd { h1 with closed := true }).record (.close w.nextFd)
    (closeErr path (w.fault (w.trace.length + k + 1))), ?_, ?_, ?_, ?_, ?_⟩
  · rw [Shred_opened path w ino hl f0 f1, hso]
    simp only [deferredClose, hcl]
  · simp only [World.record, World.setHandle, htr]
    have ht : (shredOps path w.nextFd (w.fs.inodes ino).length).take k
        = [.lstat path, .openFile path O_WRONLY 0]
          ++ (passOpsN w.nextFd (w.fs.inodes ino).length 3).take (k - 2) := by
      simp only [shredOps, numberPasses, List.append_assoc]
      rw [List.take_append_eq_append_take, List.take_append_eq_append_take]
      have h9 : (passOpsN w.nextFd (w.fs.inodes ino).length 3).length = 9 := by
        simp [passOpsN, passOps]
      simp only [List.length_cons, List.length_nil, h9]
      have hz : k - (0 + 1 + 1) - 9 = 0 := by omega
      rw [List.take_of_length_le (by simp; omega), hz]
      simp
    rw [ht]
    simp [World.opened, okCalls]
  · simpa [World.record, World.setHandle, World.opened] using he
  · exact ⟨{ h1 with closed := true }, by simp [World.record, World.setHandle], rfl⟩
  · intro i hi
    simp only [World.record, World.setHandle, hi, if_false]
    rw [ho i hi]
    simp [World.opened, hi]

/-- The three passes of `Shred` on a regular file when the first eleven calls go through:
the world at the end of the loop. -/
theorem Shred_loop_done (path : String) (w : World) (ino : Nat)
    (hok : ∀ j, j < 11 → callOk w (w.fs.inodes ino).length j) :
    ∃ w1 h1, passes ⟨w.nextFd, path⟩ (w.fs.inodes ino).length 3 (w.opened path ino) = (none, w1)
      ∧ w1.trace = w.trace ++ okCalls ((shredOps path w.nextFd (w.fs.inodes ino).length).take 11)
      ∧ w1.fs.entries = w.fs.entries
      ∧ w1.fault = w.fault
      ∧ w1.handles w.nextFd = some h1 ∧ h1.closed = false
      ∧ (∀ i, i ≠ w.nextFd → w1.handles i = w.handles i)
      ∧ w1.fs.inodes ino = randomBytes w.rand (w.randPos + 2 * (w.fs.inodes ino).length)
          (w.fs.inodes ino).length
      ∧ w1.randPos = w.randPos + 3 * (w.fs.inodes ino).length := by
  obtain ⟨w1, hrun, htr, hkept, _, hdata, hpos⟩ :=
    passes_ok ⟨w.nextFd, path⟩ (w.fs.inodes ino).length 3 (w.opened path ino)
      ⟨ino, O_WRONLY, 0, false⟩ (by simp [World.opened]) rfl rfl
      (by simp [World.opened])
      (fun j hj => stepOk_opened w path ino _ j (by omega) (hok (j + 2) (by omega)))
  obtain ⟨he, hfl, _, ⟨h1, hh1, hc1, _, _⟩, ho⟩ := hkept
  refine ⟨w1, h1, hrun, ?_, ?_, ?_, hh1, hc1, ?_, ?_, by simpa [World.opened] using hpos⟩
  · rw [htr]
    simp [World.opened, okCalls, shredOps, numberPasses, passOpsN, passOps]
  · simpa [World.opened] using he
  · simpa [World.opened] using hfl
  · intro i hi
    rw [ho i hi]
    simp [World.opened, hi]
  · have := hdata (by norm_num)
    simpa [World.opened, Nat.mul_comm] using this

/-- A run of `Shred` on a regular file in which the explicit close is the first call to
fail. -/
theorem Shred_close_fail (path : String) (w : World) (ino : Nat) (flt : Fault)
    (hl : w.fs.lookup path = some (.regular ino))
    (hok : ∀ j, j < 11 → callOk w (w.fs.inodes ino).length j)
    (hflt : w.fault (w.trace.length + 11) = some flt) :
    ∃ w1, Shred path w = (some (Errorf "failed to close file: "
          (.pathError "close" path (.errno flt.code))), w1)
      ∧ w1.trace = w.trace ++ okCalls ((shredOps path w.nextFd (w.fs.inodes ino).length).take 11)
          ++ [⟨.close w.nextFd, some (.pathError "close" path (.errno flt.code))⟩]
      ∧ w1.fs.entries = w.fs.entries
      ∧ (∃ h1, w1.handles w.nextFd = some h1 ∧ h1.closed = true)
      ∧ (∀ i, i ≠ w.nextFd → w1.handles i = w.handles i)
      ∧ w1.fs.inodes ino = randomBytes w.rand (w.randPos + 2 * (w.fs.inodes ino).length)
          (w.fs.inodes ino).length := by
  have f0 : w.fault w.trace.length = none := by
    simpa [callOk, isCopyCall] using hok 0 (by omega)
  have f1 : w.fault (w.trace.length + 1) = none := by
    simpa [callOk, isCopyCall] using hok 1 (by omega)
  obtain ⟨w1, h1, hrun, htr, he, hfl, hh1, hc1, ho, hdata, hpos⟩ := Shred_loop_done path w ino hok
  have hlen : w1.trace.length = w.trace.length + 11 := by
    rw [htr]
    simp [okCalls, shredOps, numberPasses, passOpsN, passOps]
  have hcl := Close_fail ⟨w.nextFd, path⟩ w1 h1 flt hh1 hc1 (by rw [hfl, hlen]; exact hflt)
  refine ⟨(w1.setHandle w.nextFd { h1 with closed := true }).record (.close w.nextFd)
    (some (.pathError "close" path (.errno flt.code))), ?_, ?_, ?_, ?_, ?_, ?_⟩
  · rw [Shred_opened path w ino hl f0 f1]
    simp only [shredOpened, numberPasses, hrun, hcl, deferredClose]
  · simp [World.record, World.setHandle, htr]
  · simpa [World.record, World.setHandle] using he
  · exact ⟨{ h1 with closed := true }, by simp [World.record, World.setHandle], rfl⟩
  · intro i hi
    simp only [World.record, World.setHandle, hi, if_false]
    exact ho i hi
  · simpa [World.record, World.setHandle] using hdata

/-- A run of `Shred` on a regular file in which the remove is the first call to fail. -/
theorem Shred_remove_fail (path : String) (w : World) (ino : Nat) (flt : Fault)
    (hl : w.fs.lookup path = some (.regular ino))
    (hok : ∀ j, j < 12 → callOk w (w.fs.inodes ino).length j)
    (hflt : w.fault (w.trace.length + 12) = some flt) :
    ∃ w1, Shred path w = (some (Errorf "failed to delete file: "
          (.pathError "remove" path (.errno flt.code))), w1)
      ∧ w1.trace = w.trace ++ okCalls ((shredOps path w.nextFd (w.fs.inodes ino).length).take 12)
          ++ [⟨.remove path, some (.pathError "remove" path (.errno flt.code))⟩]
      ∧ w1.fs.entries = w.fs.entries
      ∧ (∃ h1, w1.handles w.nextFd = some h1 ∧ h1.closed = true)
      ∧ (∀ i, i ≠ w.nextFd → w1.handles i = w.handles i)
      ∧ w1.fs.inodes ino = randomBytes w.rand (w.randPos + 2 * (w.fs.inodes ino).length)
          (w.fs.inodes ino).length := by
  have f0 : w.fault w.trace.length = none := by
    simpa [callOk, isCopyCall] using hok 0 (by omega)
  have f1 : w.fault (w.trace.length + 1) = none := by
    simpa [callOk, isCopyCall] using hok 1 (by omega)
  have f11 : w.fault (w.trace.length + 11) = none := by
    simpa [callOk, isCopyCall] using hok 11 (by omega)
  obtain ⟨w1, h1, hrun, htr, he, hfl, hh1, hc1, ho, hdata, hpos⟩ :=
    Shred_loop_done path w ino (fun j hj => hok j (by omega))
  have hlen : w1.trace.length = w.trace.length + 11 := by
    rw [htr]
    simp [okCalls, shredOps, numberPasses, passOpsN, passOps]
  have hcl := Close_ok ⟨w.nextFd, path⟩ w1 h1 hh1 hc1 (by rw [hfl, hlen]; exact f11)
  have hrm := Remove_fail path ((w1.setHandle w.nextFd { h1 with closed := true }).record
    (.close w.nextFd) none) flt
    (by simpa [World.record, World.setHandle, hfl, hlen] using hflt)
  refine ⟨((w1.setHandle w.nextFd { h1 with closed := true }).record (.close w.nextFd)
    none).record (.remove path) (some (.pathError "remove" path (.errno flt.code))),
    ?_, ?_, ?_, ?_, ?_, ?_⟩
  · rw [Shred_opened path w ino hl f0 f1]
    simp only [shredOpened, numberPasses, hrun, hcl, hrm, deferredClose]
  · simp [World.record, World.setHandle, htr, okCalls, shredOps, numberPasses, passOpsN,
      passOps]
  · simpa [World.record, World.setHandle] using he
  · exact ⟨{ h1 with closed := true }, by simp [World.record, World.setHandle], rfl⟩
  · intro i hi
    simp only [World.record, World.setHandle, hi, if_false]
    exact ho i hi
  · simpa [World.record, World.setHandle] using hdata

/-- A run of `Shred` on a regular file in which all thirteen calls go through. -/
theorem Shred_all_ok (path : String) (w : World) (ino : Nat)
    (hl : w.fs.lookup path = some (.regular ino))
    (hok : ∀ j, j < 13 → callOk w (w.fs.inodes ino).length j) :
    ∃ w1, Shred path w = (none, w1)
      ∧ w1.trace = w.trace ++ okCalls (shredOps path w.nextFd (w.fs.inodes ino).length)
      ∧ w1.fs.entries = (w.fs.unlink path).entries
      ∧ w1.fault = w.fault
      ∧ (∃ h1, w1.handles w.nextFd = some h1 ∧ h1.closed = true)
      ∧ (∀ i, i ≠ w.nextFd → w1.handles i = w.handles i)
      ∧ w1.fs.inodes ino = randomBytes w.rand (w.randPos + 2 * (w.fs.inodes ino).length)
          (w.fs.inodes ino).length
      ∧ w1.randPos = w.randPos + 3 * (w.fs.inodes ino).length := by
  have f0 : w.fault w.trace.length = none := by
    simpa [callOk, isCopyCall] using hok 0 (by omega)
  have f1 : w.fault (w.trace.length + 1) = none := by
    simpa [callOk, isCopyCall] using hok 1 (by omega)
  have f11 : w.fault (w.trace.length + 11) = none := by
    simpa [callOk, isCopyCall] using hok 11 (by omega)
  have f12 : w.fault (w.trace.length + 12) = none := by
    simpa [callOk, isCopyCall] using hok 12 (by omega)
  obtain ⟨w1, h1, hrun, htr, he, hfl, hh1, hc1, ho, hdata, hpos⟩ :=
    Shred_loop_done path w ino (fun j hj => hok j (by omega))
  have hlen : w1.trace.length = w.trace.length + 11 := by
    rw [htr]
    simp [okCalls, shredOps, numberPasses, passOpsN, passOps]
  have hcl := Close_ok ⟨w.nextFd, path⟩ w1 h1 hh1 hc1 (by rw [hfl, hlen]; exact f11)
  have hl1 : w1.fs.lookup path = some (.regular ino) := by
    rw [lookup_entries w1.fs w.fs he]
    exact hl
  have hrm := Remove_ok path ((w1.setHandle w.nextFd { h1 with closed := true }).record
    (.close w.nextFd) none) (.regular ino)
    (by simpa [World.record, World.setHandle] using hl1)
    (by simpa [World.record, World.setHandle, hfl, hlen] using f12)
  have hS : Shred path w = (none, (Remove path ((w1.setHandle w.nextFd
      { h1 with closed := true }).record (.close w.nextFd) none)).2) := by
    rw [Shred_opened path w ino hl f0 f1]
    simp only [shredOpened, numberPasses, hrun, hcl, hrm, deferredClose]
  rw [hrm] at hS
  refine ⟨_, hS, ?_, ?_, ?_, ?_, ?_, ?_, by simpa [World.record, World.setHandle] using hpos⟩
  · simp [World.record, World.setHandle, htr, okCalls, shredOps, numberPasses, passOpsN,
      passOps]
  · simp [World.record, World.setHandle, FS.unlink, he]
  · simpa [World.record, World.setHandle] using hfl
  · exact ⟨{ h1 with closed := true }, by simp [World.record, World.setHandle], rfl⟩
  · intro i hi
    simp only [World.record, World.setHandle, hi, if_false]
    exact ho i hi
  · simpa [World.record, World.setHandle, FS.unlink] using hdata

theorem Shred_lstat_fail (path : String) (w : World) (flt : Fault)
    (f0 : w.fault w.trace.length = some flt) :
    Shred path w = (some (if flt.code = ENOENT then .pathError "lstat" path (.errno flt.code)
        else Errorf "failed to get file information: "
          (.pathError "lstat" path (.errno flt.code))),
      w.record (.lstat path) (some (.pathError "lstat" path (.errno flt.code)))) := by
  simp only [Shred, Lstat_fail path w flt f0, IsNotExist, underlyingError]
  by_cases hc : flt.code = ENOENT <;> simp [hc]

/-- A run of `Shred` on a path whose walk fails with `code`: the `Lstat` error is returned
as it is when the code is `ENOENT`, and inside a new error otherwise. -/
theorem Shred_absent (path : String) (w : World) (code : Nat)
    (hw : w.fs.walk path = .error code) (f0 : w.fault w.trace.length = none) :
    Shred path w = (some (if code = ENOENT then .pathError "lstat" path (.errno code)
        else Errorf "failed to get file information: "
          (.pathError "lstat" path (.errno code))),
      w.record (.lstat path) (some (.pathError "lstat" path (.errno code)))) := by
  simp only [Shred, Lstat_absent path w code hw f0, IsNotExist, underlyingError]
  by_cases hc : code = ENOENT <;> simp [hc]

theorem Shred_not_regular (path : String) (w : World) (node : Node)
    (hl : w.fs.lookup path = some node) (hn : ∀ ino, node ≠ .regular ino)
    (f0 : w.fault w.trace.length = none) :
    Shred path w = (some (.errorString "unsupported file type"),
      w.record (.lstat path) none) := by
  have hr : IsRegular node.mode = false := by
    cases hreg : IsRegular node.mode with
    | false => rfl
    | true =>
      obtain ⟨ino, hino⟩ := (isRegular_iff node).mp hreg
      exact absurd hino (hn ino)
  simp [Shred, Lstat_ok path w node hl f0, hr]

theorem Shred_open_fail (path : String) (w : World) (ino : Nat) (flt : Fault)
    (hl : w.fs.lookup path = some (.regular ino))
    (f0 : w.fault w.trace.length = none) (f1 : w.fault (w.trace.length + 1) = some flt) :
    Shred path w = (some (Errorf "failed to open file: "
        (.pathError "open" path (.errno flt.code))),
      (w.record (.lstat path) none).record (.openFile path O_WRONLY 0)
        (some (.pathError "open" path (.errno flt.code)))) := by
  have ho := OpenFile_fail path O_WRONLY 0 (w.record (.lstat path) none) flt
    (by simpa [World.record] using f1)
  simp only [Shred, Lstat_ok path w _ hl f0, isRegular_regular, ho]
  simp

/-- Among the first `n` calls either all go through or there is a first one that does
not. -/
theorem first_failure (P : Nat → Prop) (n : Nat) :
    (∀ k, k < n → P k) ∨ ∃ k, k < n ∧ (∀ j, j < k → P j) ∧ ¬ P k := by
  induction n with
  | zero => exact Or.inl (fun k hk => by omega)
  | succ n ih =>
    rcases ih with hall | ⟨k, hk, hbefore, hnot⟩
    · by_cases hn : P n
      · refine Or.inl (fun k hk => ?_)
        rcases Nat.lt_succ_iff_lt_or_eq.mp hk with h | h
        · exact hall k h
        · rw [h]; exact hn
      · exact Or.inr ⟨n, by omega, hall, hn⟩
    · exact Or.inr ⟨k, by omega, hbefore, hnot⟩

theorem not_callOk (w : World) (size k : Nat) (h : ¬ callOk w size k) :
    ∃ flt, w.fault (w.trace.length + k) = some flt ∧ (isCopyCall k → flt.progress < size) := by
  unfold callOk at h
  cases hflt : w.fault (w.trace.length + k) with
  | none =>
    exfalso
    apply h
    split
    · intro f hf
      rw [hflt] at hf
      cases hf
    · exact hflt
  | some flt =>
    refine ⟨flt, rfl, fun hc => ?_⟩
    rw [if_pos hc, hflt] at h
    by_contra hge
    exact h (fun f hf => by cases hf; omega)

/-- A run of `Shred` on a regular file in which the `k`-th call, after the `Lstat`, is the
first one to fail. -/
theorem Shred_fail_at (path : String) (w : World) (ino : Nat) (flt : Fault) (k : Nat)
    (hl : w.fs.lookup path = some (.regular ino)) (hk1 : 1 ≤ k) (hk : k < 13)
    (hok : ∀ j, j < k → callOk w (w.fs.inodes ino).length j)
    (hflt : w.fault (w.trace.length + k) = some flt)
    (hlt : isCopyCall k → flt.progress < (w.fs.inodes ino).length) :
    ∃ w1, Shred path w = (some (Errorf (callContext k)
          (.pathError (callName k) path (.errno flt.code))), w1)
      ∧ w1.trace = w.trace ++ okCalls ((shredOps path w.nextFd (w.fs.inodes ino).length).take k)
          ++ ⟨callOp path w.nextFd (w.fs.inodes ino).length k,
                some (.pathError (callName k) path (.errno flt.code))⟩
            :: deferredCalls path w.nextFd w k
      ∧ w1.fs.entries = w.fs.entries
      ∧ (2 ≤ k → ∃ h1, w1.handles w.nextFd = some h1 ∧ h1.closed = true)
      ∧ (∀ i, i ≠ w.nextFd → w1.handles i = w.handles i)
      ∧ (11 ≤ k → w1.fs.inodes ino
          = randomBytes w.rand (w.randPos + 2 * (w.fs.inodes ino).length)
              (w.fs.inodes ino).length) := by
  have f0 : w.fault w.trace.length = none := by
    simpa [callOk, isCopyCall] using hok 0 (by omega)
  rcases Nat.lt_or_ge k 2 with h2 | h2
  · have hk : k = 1 := by omega
    subst hk
    refine ⟨_, Shred_open_fail path w ino flt hl f0 hflt, ?_, rfl, by omega, fun _ _ => rfl,
      by omega⟩
    simp [World.record, okCalls, shredOps, callOp, callName, deferredCalls]
  rcases Nat.lt_or_ge k 11 with h11 | h11
  · obtain ⟨w1, hrun, htr, he, hh, ho⟩ := Shred_pass_fail path w ino flt k hl h2 h11 hok hflt hlt
    have hctx : callContext k = stepContext (k - 2) := by
      simp only [callContext]
      rw [if_neg (by omega), if_neg (by omega), if_neg (by omega)]
    have hnm : callName k = stepName (k - 2) := by
      simp only [callName]
      rw [if_neg (by omega), if_neg (by omega), if_neg (by omega), if_neg (by omega)]
    have hop : callOp path w.nextFd (w.fs.inodes ino).length k
        = stepOp w.nextFd (w.fs.inodes ino).length (k - 2) := by
      simp only [callOp]
      rw [if_neg (by omega), if_neg (by omega), if_neg (by omega), if_neg (by omega)]
    have hd : deferredCalls path w.nextFd w k
        = [⟨.close w.nextFd, closeErr path (w.fault (w.trace.length + k + 1))⟩] := by
      simp only [deferredCalls]
      rw [if_pos ⟨h2, h11⟩]
    refine ⟨w1, by rw [hctx, hnm]; exact hrun, ?_, he, fun _ => hh, ho, by omega⟩
    rw [htr, hnm, hop, hd]
  rcases Nat.lt_or_ge k 12 with h12 | h12
  · have hk : k = 11 := by omega
    subst hk
    obtain ⟨w1, hrun, htr, he, hh, ho, hdata⟩ := Shred_close_fail path w ino flt hl hok hflt
    refine ⟨w1, hrun, ?_, he, fun _ => hh, ho, fun _ => hdata⟩
    rw [htr]
    simp [callOp, callName, deferredCalls]
  · have hk : k = 12 := by omega
    subst hk
    obtain ⟨w1, hrun, htr, he, hh, ho, hdata⟩ := Shred_remove_fail path w ino flt hl hok hflt
    refine ⟨w1, hrun, ?_, he, fun _ => hh, ho, fun _ => hdata⟩
    rw [htr]
    simp [callOp, callName, deferredCalls]

/-- Every run of `Shred` on a regular file whose `Lstat` succeeds: all thirteen calls go
through, or one of the twelve after the `Lstat` is the first to fail. -/
theorem Shred_regular_cases (w : World) (size : Nat)
    (f0 : w.fault w.trace.length = none) :
    (∀ j, j < 13 → callOk w size j) ∨
      ∃ k flt, 1 ≤ k ∧ k < 13 ∧ (∀ j, j < k → callOk w size j)
        ∧ w.fault (w.trace.length + k) = some flt ∧ (isCopyCall k → flt.progress < size) := by
  rcases first_failure (callOk w size) 13 with hall | ⟨k, hk, hbefore, hnot⟩
  · exact Or.inl hall
  · obtain ⟨flt, hflt, hlt⟩ := not_callOk w size k hnot
    refine Or.inr ⟨k, flt, ?_, hk, hbefore, hflt, hlt⟩
    rcases Nat.eq_zero_or_pos k with h0 | h0
    · subst h0
      rw [Nat.add_zero, f0] at hflt
      cases hflt
    · exact h0

theorem newCalls_of_trace (w w1 : World) (evs : List Call) (h : w1.trace = w.trace ++ evs) :
    newCalls w w1 = evs := by
  simp [newCalls, h]

/-- When `Shred` returns nil, the path named a regular file and all thirteen calls went
through. -/
theorem Shred_nil (w : World) (path : String) (hnil : (Shred path w).1 = none) :
    ∃ ino, w.fs.lookup path = some (.regular ino)
      ∧ ∀ j, j < 13 → callOk w (w.fs.inodes ino).length j := by
  cases hf0 : w.fault w.trace.length with
  | some flt =>
    rw [Shred_lstat_fail path w flt hf0] at hnil
    cases hnil
  | none =>
    cases hl : w.fs.lookup path with
    | none =>
      obtain ⟨code, hw⟩ := lookup_none w.fs path hl
      rw [Shred_absent path w code hw hf0] at hnil
      cases hnil
    | some node =>
      by_cases hreg : ∃ ino, node = .regular ino
      · obtain ⟨ino, rfl⟩ := hreg
        refine ⟨ino, rfl, ?_⟩
        rcases Shred_regular_cases w (w.fs.inodes ino).length hf0 with hok
          | ⟨k, flt, hk1, hk, hok, hflt, hlt⟩
        · exact hok
        · obtain ⟨w1, hS, _⟩ := Shred_fail_at path w ino flt k hl hk1 hk hok hflt hlt
          rw [hS] at hnil
          cases hnil
      · rw [Shred_not_regular path w node hl (fun ino h => hreg ⟨ino, h⟩) hf0] at hnil
        cases hnil

theorem guarded_sound (p q : Call → Bool) :
    ∀ (evs : List Call), guarded p q evs = true →
      ∀ pre c post, evs = pre ++ c :: post → p c = true → ∃ c1, c1 ∈ pre ∧ q c1 = true := by
  intro evs
  induction evs with
  | nil =>
    intro _ pre c post h
    simp at h
  | cons a rest ih =>
    intro hg pre c post h hp
    simp only [guarded, Bool.and_eq_true, Bool.not_eq_true', Bool.or_eq_true] at hg
    cases pre with
    | nil =>
      simp only [List.nil_append, List.cons.injEq] at h
      rw [← h.1, hg.1] at hp
      cases hp
    | cons b pre1 =>
      simp only [List.cons_append, List.cons.injEq] at h
      rcases hg.2 with hq | hrest
      · exact ⟨b, List.mem_cons_self _ _, by rw [← h.1]; exact hq⟩
      · obtain ⟨c1, hc1, hq1⟩ := ih hrest pre1 c post h.2 hp
        exact ⟨c1, List.mem_cons_of_mem _ hc1, hq1⟩

/-- The first failed call of a list of calls is determined. -/
theorem first_failed_unique (oks pre post rest : List Call) (f c : Call) (e0 e : Error)
    (hoks : ∀ c1, c1 ∈ oks → c1.err = none) (hf : f.err = some e0)
    (hpre : ∀ c1, c1 ∈ pre → c1.err = none) (hc : c.err = some e)
    (h : oks ++ f :: rest = pre ++ c :: post) : c = f ∧ post = rest := by
  induction oks generalizing pre with
  | nil =>
    cases pre with
    | nil =>
      simp only [List.nil_append, List.cons.injEq] at h
      exact ⟨h.1.symm, h.2.symm⟩
    | cons b pre1 =>
      simp only [List.nil_append, List.cons_append, List.cons.injEq] at h
      have := hpre b (List.mem_cons_self _ _)
      rw [← h.1, hf] at this
      cases this
  | cons a oks1 ih =>
    cases pre with
    | nil =>
      simp only [List.nil_append, List.cons_append, List.cons.injEq] at h
      have := hoks a (List.mem_cons_self _ _)
      rw [h.1, hc] at this
      cases this
    | cons b pre1 =>
      simp only [List.cons_append, List.cons.injEq] at h
      exact ih pre1 (fun c1 h1 => hoks c1 (List.mem_cons_of_mem _ h1))
        (fun c1 h1 => hpre c1 (List.mem_cons_of_mem _ h1)) h.2

theorem okCalls_err (ops : List Op) : ∀ c, c ∈ okCalls ops → c.err = none := by
  intro c hc
  simp only [okCalls, List.mem_map] at hc
  obtain ⟨op, _, rfl⟩ := hc
  rfl

/-! ## Claims -/

/-- C1, amended: for every path for which the `Lstat` query reports a not-exist error, as it
does for the empty path when the environment does not disturb the query, `Shred` returns the
very error of the `Lstat` query, not wrapped, so that `IsNotExist` holds of the returned
error; the only call made is that `Lstat`, and the filesystem and the handle table are the ones
before the call. -/
theorem C1_not_exist_returned (w : World) (path : String) (e : Error)
    (hstat : (Lstat path w).1 = .error e) (hne : IsNotExist e = true) :
    (Shred path w).1 = some e
      ∧ (Shred path w).2.trace = w.trace ++ [⟨.lstat path, some e⟩]
      ∧ (Shred path w).2.fs = w.fs ∧ (Shred path w).2.handles = w.handles
      ∧ (w.faultNow = none →
          (Lstat "" w).1 = .error (.pathError "lstat" "" (.errno ENOENT))
            ∧ IsNotExist (.pathError "lstat" "" (.errno ENOENT)) = true) := by
  have hw := Lstat_world path w
  rw [hstat] at hw
  have hp : Lstat path w = (.error e, w.record (.lstat path) (some e)) := Prod.ext hstat hw
  have hS : Shred path w = (some e, w.record (.lstat path) (some e)) := by
    simp only [Shred, hp, hne, if_true]
  rw [hS]
  refine ⟨rfl, rfl, rfl, rfl, fun hq => ⟨?_, ?_⟩⟩
  · rw [Lstat_absent "" w ENOENT (walk_empty w.fs) hq]
  · simp [IsNotExist, underlyingError]

theorem C1_not_exist_returned_witness :
    (Lstat "" (demoWorld noFault)).1 = .error (.pathError "lstat" "" (.errno ENOENT))
      ∧ IsNotExist (.pathError "lstat" "" (.errno ENOENT)) = true
      ∧ (Shred "" (demoWorld noFault)).1 = some (.pathError "lstat" "" (.errno ENOENT))
      ∧ (Shred "" (demoWorld noFault)).2.trace
          = (demoWorld noFault).trace
            ++ [⟨.lstat "", some (.pathError "lstat" "" (.errno ENOENT))⟩]
      ∧ (Shred "" (demoWorld noFault)).2.fs = (demoWorld noFault).fs :=
  have h := C1_not_exist_returned (demoWorld noFault) ""
    (.pathError "lstat" "" (.errno ENOENT)) rfl (by decide)
  ⟨rfl, by decide, h.1, h.2.1, h.2.2.1⟩

/-- C1 as stated fails: in the example filesystem `f` is a regular file, so the path `f/x`
has no directory entry, yet the `Lstat` query answers `ENOTDIR`, which is not a not-exist
error, and `Shred` returns the wrapped error `failed to get file information: ...`, for
which `IsNotExist` is false. -/
theorem C1_counterexample :
    (demoWorld noFault).fs.lookup "f" = some (.regular 7)
      ∧ (demoWorld noFault).fs.lookup "f/x" = none
      ∧ (demoWorld noFault).fs.entries "f/x" = none
      ∧ (demoWorld noFault).faultNow = none
      ∧ (Lstat "f/x" (demoWorld noFault)).1
          = .error (.pathError "lstat" "f/x" (.errno ENOTDIR))
      ∧ (Shred "f/x" (demoWorld noFault)).1
          = some (.errorString "failed to get file information: lstat f/x: not a directory")
      ∧ IsNotExist (.errorString "failed to get file information: lstat f/x: not a directory")
          = false := by
  refine ⟨by decide, by decide, by decide, rfl, rfl, by decide, by decide⟩

/-- C2: for a path whose own entry exists and is not a regular file (a directory, a symbolic
link whatever it points to, a device, a FIFO, a socket), when the metadata query is not
disturbed, `Shred` returns the error `unsupported file type`, the only call made is the
`Lstat`, and the filesystem (entries and data, so also a link's target) and the handle table
are unchanged. -/
theorem C2_not_regular (w : World) (path : String) (node : Node)
    (hl : w.fs.lookup path = some node) (hn : ∀ ino, node ≠ .regular ino)
    (hq : w.faultNow = none) :
    (Shred path w).1 = some (.errorString "unsupported file type")
      ∧ (Shred path w).2.trace = w.trace ++ [⟨.lstat path, none⟩]
      ∧ (Shred path w).2.fs = w.fs ∧ (Shred path w).2.handles = w.handles := by
  rw [Shred_not_regular path w node hl hn hq]
  exact ⟨rfl, rfl, rfl, rfl⟩

theorem C2_not_regular_witness :
    (demoWorld noFault).fs.lookup "s" = some (.symlink "f")
      ∧ (∀ ino, Node.symlink "f" ≠ .regular ino)
      ∧ (demoWorld noFault).faultNow = none
      ∧ (demoWorld noFault).fs.lookup "f" = some (.regular 7)
      ∧ (Shred "s" (demoWorld noFault)).1 = some (.errorString "unsupported file type")
      ∧ (Shred "s" (demoWorld noFault)).2.trace
          = (demoWorld noFault).trace ++ [⟨.lstat "s", none⟩]
      ∧ (Shred "s" (demoWorld noFault)).2.fs = (demoWorld noFault).fs
      ∧ (Shred "s" (demoWorld noFault)).2.handles = (demoWorld noFault).handles :=
  ⟨by decide, (fun _ h => Node.noConfusion h), rfl, by decide,
    C2_not_regular (demoWorld noFault) "s" (.symlink "f") (by decide)
      (fun _ h => Node.noConfusion h) rfl⟩

/-- C3: for a regular file whose `Lstat` succeeds and whose `OpenFile` with `O_WRONLY` fails
with `cause`, `Shred` returns the error `failed to open file: ` followed by the message of
`cause`; the calls made are the `Lstat` and the failed open, with no seek, copy, sync, close
or remove; the filesystem (entries, data and lengths) and the handle table are unchanged. -/
theorem C3_open_fails (w : World) (path : String) (ino : Nat) (cause : Error)
    (hl : w.fs.lookup path = some (.regular ino)) (hq : w.faultNow = none)
    (hopen : (OpenFile path O_WRONLY 0 (Lstat path w).2).1 = .error cause) :
    (Shred path w).1 = some (Errorf "failed to open file: " cause)
      ∧ (Errorf "failed to open file: " cause).message
          = "failed to open file: " ++ cause.message
      ∧ (Shred path w).2.trace
          = w.trace ++ [⟨.lstat path, none⟩, ⟨.openFile path O_WRONLY 0, some cause⟩]
      ∧ (Shred path w).2.fs = w.fs ∧ (Shred path w).2.handles = w.handles := by
  rw [Lstat_ok path w _ hl hq] at hopen
  cases hflt : w.fault (w.trace.length + 1) with
  | none =>
    rw [OpenFile_ok path (w.record (.lstat path) none) ino
      (by simpa [World.record] using hl) (by simpa [World.record] using hflt)] at hopen
    cases hopen
  | some flt =>
    rw [OpenFile_fail path O_WRONLY 0 (w.record (.lstat path) none) flt
      (by simpa [World.record] using hflt)] at hopen
    cases hopen
    rw [Shred_open_fail path w ino flt hl hq hflt]
    exact ⟨rfl, rfl, by simp [World.record], rfl, rfl⟩

theorem C3_open_fails_witness :
    (demoWorld openDenied).fs.lookup "f" = some (.regular 7)
      ∧ (demoWorld openDenied).faultNow = none
      ∧ (OpenFile "f" O_WRONLY 0 (Lstat "f" (demoWorld openDenied)).2).1
          = .error (.pathError "open" "f" (.errno EACCES))
      ∧ (Shred "f" (demoWorld openDenied)).1
          = some (.errorString "failed to open file: open f: permission denied")
      ∧ (Shred "f" (demoWorld openDenied)).2.fs = (demoWorld openDenied).fs :=
  have h := C3_open_fails (demoWorld openDenied) "f" 7 (.pathError "open" "f" (.errno EACCES))
    (by decide) rfl rfl
  ⟨by decide, rfl, rfl, h.1.trans (by decide), h.2.2.2.1⟩

/-- C4: when `Shred` returns nil (on a regular file of any size, the empty file included),
the path names no entry afterwards; an `Lstat` or `Stat` of the path made right after, if
the environment does not disturb it, reports a not-exist error, and a second `Shred` of the
path returns that `Lstat` error, for which `IsNotExist` holds, rather than nil. -/
theorem C4_removed_after_success (w : World) (path : String)
    (hnil : (Shred path w).1 = none) :
    (Shred path w).2.fs.lookup path = none
      ∧ ((Shred path w).2.faultNow = none →
          ∃ e e1, (Lstat path (Shred path w).2).1 = .error e ∧ IsNotExist e = true
            ∧ (Stat path (Shred path w).2).1 = .error e1 ∧ IsNotExist e1 = true
            ∧ (Shred path (Shred path w).2).1 = some e) := by
  obtain ⟨ino, hl, hok⟩ := Shred_nil w path hnil
  obtain ⟨w1, hS, _, he, _⟩ := Shred_all_ok path w ino hl hok
  rw [hS]
  have hw1 : w1.fs.walk path = .error ENOENT := by
    have := walk_unlink_self w.fs path ino ((lookup_some _ _ _).mp hl)
    simpa [FS.walk, he] using this
  refine ⟨lookup_of_walk_error _ _ _ hw1, fun hq => ⟨.pathError "lstat" path (.errno ENOENT),
    .pathError "stat" path (.errno ENOENT), ?_, ?_, ?_, ?_, ?_⟩⟩
  · rw [Lstat_absent path w1 ENOENT hw1 hq]
  · simp [IsNotExist, underlyingError]
  · simp only [Stat]
    rw [hq]
    simp [FS.resolve, hw1]
  · simp [IsNotExist, underlyingError]
  · rw [Shred_absent path w1 ENOENT hw1 hq]
    simp

theorem C4_removed_after_success_witness :
    (Shred "f" (demoWorld noFault)).1 = none
      ∧ (Shred "f" (demoWorld noFault)).2.faultNow = none
      ∧ (Shred "f" (demoWorld noFault)).2.fs.lookup "f" = none
      ∧ ∃ e e1, (Lstat "f" (Shred "f" (demoWorld noFault)).2).1 = .error e
          ∧ IsNotExist e = true
          ∧ (Stat "f" (Shred "f" (demoWorld noFault)).2).1 = .error e1
          ∧ IsNotExist e1 = true
          ∧ (Shred "f" (Shred "f" (demoWorld noFault)).2).1 = some e :=
  have h := C4_removed_after_success (demoWorld noFault) "f" (by decide)
  ⟨by decide, rfl, h.1, h.2 rfl⟩

/-- C5: for a regular file of size `S` with a second hard link `link` to the same inode,
after `Shred` returns nil the link is still there and the data read through it has length
exactly `S` and is exactly the `S` bytes the random source supplied in the third pass (the
source has then supplied `3 * S` bytes); so it differs from the original content whenever
those bytes do. -/
theorem C5_hard_link_content (w : World) (path link : String) (ino : Nat)
    (hl : w.fs.lookup path = some (.regular ino))
    (hlink : w.fs.lookup link = some (.regular ino)) (hne : link ≠ path)
    (hnil : (Shred path w).1 = none) :
    (Shred path w).2.fs.content link
        = some (randomBytes w.rand (w.randPos + 2 * (w.fs.inodes ino).length)
            (w.fs.inodes ino).length)
      ∧ (randomBytes w.rand (w.randPos + 2 * (w.fs.inodes ino).length)
            (w.fs.inodes ino).length).length = (w.fs.inodes ino).length
      ∧ (Shred path w).2.randPos = w.randPos + 3 * (w.fs.inodes ino).length
      ∧ (randomBytes w.rand (w.randPos + 2 * (w.fs.inodes ino).length)
            (w.fs.inodes ino).length ≠ w.fs.inodes ino →
          (Shred path w).2.fs.content link ≠ w.fs.content link) := by
  obtain ⟨ino1, hl1, hok⟩ := Shred_nil w path hnil
  rw [hl] at hl1
  cases hl1
  obtain ⟨w1, hS, _, he, _, _, _, hdata, hpos⟩ := Shred_all_ok path w ino hl hok
  rw [hS]
  have hlink1 : w1.fs.lookup link = some (.regular ino) := by
    rw [lookup_entries w1.fs (w.fs.unlink path) he]
    exact (lookup_some _ _ _).mpr (walk_unlink_other w.fs path link ino _
      ((lookup_some _ _ _).mp hl) hne ((lookup_some _ _ _).mp hlink))
  have hc1 : w1.fs.content link = some (w1.fs.inodes ino) := by
    simp [FS.content, hlink1]
  have hc0 : w.fs.content link = some (w.fs.inodes ino) := by
    simp [FS.content, hlink]
  refine ⟨by rw [hc1, hdata], randomBytes_length _ _ _, hpos, fun hdiff => ?_⟩
  rw [hc1, hc0, hdata]
  intro h
  exact hdiff (Option.some.inj h)

theorem C5_hard_link_content_witness :
    (demoWorld noFault).fs.lookup "f" = some (.regular 7)
      ∧ (demoWorld noFault).fs.lookup "g" = some (.regular 7) ∧ "g" ≠ "f"
      ∧ (Shred "f" (demoWorld noFault)).1 = none
      ∧ (demoWorld noFault).fs.content "g" = some [1, 2, 3]
      ∧ (Shred "f" (demoWorld noFault)).2.fs.content "g" = some [16, 17, 18] :=
  have h := C5_hard_link_content (demoWorld noFault) "f" "g" 7 (by decide) (by decide)
    (by decide) (by decide)
  ⟨by decide, by decide, by decide, by decide, by decide, h.1.trans (by decide)⟩

/-- C6: in every run of `Shred` in which the open succeeded, whatever happens afterwards
(all passes succeed, a seek, copy or sync fails in any pass, the explicit close fails, the
remove fails), exactly one close is called, on the handle the open returned; the handle is
closed when `Shred` returns; and any remove of the path comes after that close. -/
theorem C6_closed_exactly_once (w : World) (path : String)
    (hopen : (⟨.openFile path O_WRONLY 0, none⟩ : Call) ∈ newCalls w (Shred path w).2) :
    (OpenFile path O_WRONLY 0 (Lstat path w).2).1 = .ok ⟨w.nextFd, path⟩
      ∧ (newCalls w (Shred path w).2).countP (fun c => c.op.isClose) = 1
      ∧ (∃ cerr, (⟨.close w.nextFd, cerr⟩ : Call) ∈ newCalls w (Shred path w).2)
      ∧ (∃ h1, (Shred path w).2.handles w.nextFd = some h1 ∧ h1.closed = true)
      ∧ (∀ pre c post, newCalls w (Shred path w).2 = pre ++ c :: post →
          c.op = .remove path → ∃ c1, c1 ∈ pre ∧ c1.op = .close w.nextFd) := by
  cases hf0 : w.fault w.trace.length with
  | some flt =>
    rw [Shred_lstat_fail path w flt hf0] at hopen
    simp [newCalls, World.record] at hopen
  | none =>
    cases hl : w.fs.lookup path with
    | none =>
      obtain ⟨code, hw⟩ := lookup_none w.fs path hl
      rw [Shred_absent path w code hw hf0] at hopen
      simp [newCalls, World.record] at hopen
    | some node =>
      by_cases hreg : ∃ ino, node = .regular ino
      swap
      · rw [Shred_not_regular path w node hl (fun ino h => hreg ⟨ino, h⟩) hf0] at hopen
        simp [newCalls, World.record] at hopen
      obtain ⟨ino, rfl⟩ := hreg
      have hsplit : ∀ evs : List Call,
          guarded (fun c => decide (c.op = .remove path))
            (fun c => decide (c.op = .close w.nextFd)) evs = true →
          ∀ pre c post, evs = pre ++ c :: post → c.op = .remove path →
            ∃ c1, c1 ∈ pre ∧ c1.op = .close w.nextFd := by
        intro evs hg pre c post h hc
        obtain ⟨c1, hm, hq⟩ := guarded_sound _ _ evs hg pre c post h (by simpa using hc)
        exact ⟨c1, hm, by simpa using hq⟩
      rcases Shred_regular_cases w (w.fs.inodes ino).length hf0 with hok
        | ⟨k, flt, hk1, hk, hok, hflt, hlt⟩
      · have f1 : w.fault (w.trace.length + 1) = none := by
          simpa [callOk, isCopyCall] using hok 1 (by omega)
        obtain ⟨w1, hS, htr, _, _, hh, _⟩ := Shred_all_ok path w ino hl hok
        rw [hS, newCalls_of_trace w w1 _ htr]
        refine ⟨?_, ?_, ?_, hh, ?_⟩
        · rw [Lstat_ok path w _ hl hf0, OpenFile_ok path _ ino
            (by simpa [World.record] using hl) (by simpa [World.record] using f1)]
          rfl
        · simp [okCalls, shredOps, numberPasses, passOpsN, passOps, Op.isClose]
        · exact ⟨none, by simp [okCalls, shredOps]⟩
        · apply hsplit
          simp [okCalls, shredOps, numberPasses, passOpsN, passOps, guarded]
      · obtain ⟨w1, hS, htr, _, hh, _, _⟩ := Shred_fail_at path w ino flt k hl hk1 hk hok hflt hlt
        rw [hS, newCalls_of_trace w w1 _ (by rw [htr, List.append_assoc])] at hopen ⊢
        have hk2 : 2 ≤ k := by
          by_contra hlt2
          have hk : k = 1 := by omega
          subst hk
          simp [okCalls, shredOps, callOp, deferredCalls] at hopen
        have f1 : w.fault (w.trace.length + 1) = none := by
          simpa [callOk, isCopyCall] using hok 1 (by omega)
        refine ⟨?_, ?_, ?_, hh hk2, ?_⟩
        · rw [Lstat_ok path w _ hl hf0, OpenFile_ok path _ ino
            (by simpa [World.record] using hl) (by simpa [World.record] using f1)]
          rfl
        · clear hopen hS htr hok hflt hlt hsplit
          interval_cases k <;>
            simp [okCalls, shredOps, numberPasses, passOpsN, passOps, Op.isClose, callOp,
              stepOp, deferredCalls]
        · clear hopen hS htr hok hflt hlt hsplit
          interval_cases k <;>
            simp [okCalls, shredOps, numberPasses, passOpsN, passOps, callOp, stepOp,
              deferredCalls]
        · apply hsplit
          clear hopen hS htr hok hflt hlt hsplit
          interval_cases k <;>
            simp [okCalls, shredOps, numberPasses, passOpsN, passOps, callOp, stepOp,
              deferredCalls, guarded]

theorem C6_closed_exactly_once_witness :
    (⟨.openFile "f" O_WRONLY 0, none⟩ : Call)
        ∈ newCalls (demoWorld seekAndCloseFail) (Shred "f" (demoWorld seekAndCloseFail)).2
      ∧ (newCalls (demoWorld seekAndCloseFail)
          (Shred "f" (demoWorld seekAndCloseFail)).2).countP (fun c => c.op.isClose) = 1
      ∧ (∃ h1, (Shred "f" (demoWorld seekAndCloseFail)).2.handles 3 = some h1
          ∧ h1.closed = true) :=
  have h := C6_closed_exactly_once (demoWorld seekAndCloseFail) "f" (by decide)
  ⟨by decide, h.2.1, h.2.2.2.1⟩

/-- C7: for a regular file of size `S` on which every call that `Shred` makes succeeds, the
calls are exactly: `Lstat`; `OpenFile` with the flag `O_WRONLY` alone (no `O_CREATE`, no
`O_TRUNC`); three times seek to offset 0 from the start, copy of `S` random bytes, sync; close;
remove; and `Shred` returns nil. `S` is the size the `Lstat` reports, also when it is 0. -/
theorem C7_success_sequence (w : World) (path : String) (ino : Nat)
    (hl : w.fs.lookup path = some (.regular ino))
    (hall : ∀ c, c ∈ newCalls w (Shred path w).2 → c.err = none) :
    (Shred path w).1 = none
      ∧ (Lstat path w).1 = .ok ⟨0, (w.fs.inodes ino).length⟩
      ∧ (Shred path w).2.trace = w.trace ++
          [⟨.lstat path, none⟩, ⟨.openFile path O_WRONLY 0, none⟩,
            ⟨.seek w.nextFd 0 0, none⟩, ⟨.copyN w.nextFd (w.fs.inodes ino).length, none⟩,
            ⟨.sync w.nextFd, none⟩,
            ⟨.seek w.nextFd 0 0, none⟩, ⟨.copyN w.nextFd (w.fs.inodes ino).length, none⟩,
            ⟨.sync w.nextFd, none⟩,
            ⟨.seek w.nextFd 0 0, none⟩, ⟨.copyN w.nextFd (w.fs.inodes ino).length, none⟩,
            ⟨.sync w.nextFd, none⟩,
            ⟨.close w.nextFd, none⟩, ⟨.remove path, none⟩]
      ∧ O_WRONLY &&& O_CREATE = 0 ∧ O_WRONLY &&& O_TRUNC = 0 := by
  cases hf0 : w.fault w.trace.length with
  | some flt =>
    exfalso
    have hS := Shred_lstat_fail path w flt hf0
    have hmem : (⟨.lstat path, some (.pathError "lstat" path (.errno flt.code))⟩ : Call)
        ∈ newCalls w (Shred path w).2 := by
      rw [hS]
      simp [newCalls, World.record]
    exact absurd (hall _ hmem) (by simp)
  | none =>
    rcases Shred_regular_cases w (w.fs.inodes ino).length hf0 with hok
      | ⟨k, flt, hk1, hk, hok, hflt, hlt⟩
    · obtain ⟨w1, hS, htr, _⟩ := Shred_all_ok path w ino hl hok
      rw [hS]
      refine ⟨rfl, ?_, ?_, by decide, by decide⟩
      · rw [Lstat_ok path w _ hl hf0]
        rfl
      · rw [htr]
        rfl
    · exfalso
      obtain ⟨w1, hS, htr, _⟩ := Shred_fail_at path w ino flt k hl hk1 hk hok hflt hlt
      have hmem : (⟨callOp path w.nextFd (w.fs.inodes ino).length k,
          some (.pathError (callName k) path (.errno flt.code))⟩ : Call)
          ∈ newCalls w (Shred path w).2 := by
        rw [hS, newCalls_of_trace w w1 _ (by rw [htr, List.append_assoc])]
        simp
      exact absurd (hall _ hmem) (by simp)

theorem C7_success_sequence_witness :
    (demoWorld noFault).fs.lookup "f" = some (.regular 7)
      ∧ (∀ c, c ∈ newCalls (demoWorld noFault) (Shred "f" (demoWorld noFault)).2 → c.err = none)
      ∧ (Shred "f" (demoWorld noFault)).1 = none
      ∧ (Shred "f" (demoWorld noFault)).2.trace =
          [⟨.lstat "f", none⟩, ⟨.openFile "f" 1 0, none⟩,
            ⟨.seek 3 0 0, none⟩, ⟨.copyN 3 3, none⟩, ⟨.sync 3, none⟩,
            ⟨.seek 3 0 0, none⟩, ⟨.copyN 3 3, none⟩, ⟨.sync 3, none⟩,
            ⟨.seek 3 0 0, none⟩, ⟨.copyN 3 3, none⟩, ⟨.sync 3, none⟩,
            ⟨.close 3, none⟩, ⟨.remove "f", none⟩] :=
  have h := C7_success_sequence (demoWorld noFault) "f" 7 (by decide) (by decide)
  ⟨by decide, by decide, h.1, h.2.2.1⟩

/-- C8: on a regular file, let step `s` (0 seek, 1 copy of `size` bytes, 2 sync) of pass `i`
be the first call to fail, all earlier calls having gone through. Then `Shred` returns that
step's error (`failed to seek file: `, `failed to overwrite file: ` or `failed to sync file: `
followed by the cause's message); the calls made are the successful ones up to the failing
step, the failing step, and one close, with no seek, copy or sync after the failure and no
remove; the directory entry is still there and the handle is closed. -/
theorem C8_pass_step_fails (w : World) (path : String) (ino : Nat) (flt : Fault) (i s : Nat)
    (hi : i < numberPasses) (hs : s < 3)
    (hl : w.fs.lookup path = some (.regular ino))
    (hok : ∀ j, j < 2 + 3 * i + s → callOk w (w.fs.inodes ino).length j)
    (hflt : w.fault (w.trace.length + (2 + 3 * i + s)) = some flt)
    (hlt : s = 1 → flt.progress < (w.fs.inodes ino).length) :
    (Shred path w).1 = some (Errorf (stepContext s)
        (.pathError (stepName s) path (.errno flt.code)))
      ∧ (Errorf (stepContext s) (.pathError (stepName s) path (.errno flt.code))).message
          = stepContext s ++ (Error.pathError (stepName s) path (.errno flt.code)).message
      ∧ (Shred path w).2.trace = w.trace
          ++ okCalls ([.lstat path, .openFile path O_WRONLY 0]
              ++ passOpsN w.nextFd (w.fs.inodes ino).length i
              ++ (passOps w.nextFd (w.fs.inodes ino).length).take s)
          ++ [⟨stepOp w.nextFd (w.fs.inodes ino).length s,
                some (.pathError (stepName s) path (.errno flt.code))⟩,
              ⟨.close w.nextFd,
                closeErr path (w.fault (w.trace.length + (2 + 3 * i + s) + 1))⟩]
      ∧ (∀ c, c ∈ newCalls w (Shred path w).2 → ∀ name, c.op ≠ .remove name)
      ∧ (Shred path w).2.fs.lookup path = some (.regular ino)
      ∧ (∃ h1, (Shred path w).2.handles w.nextFd = some h1 ∧ h1.closed = true) := by
  have hcopy : isCopyCall (2 + 3 * i + s) → s = 1 := by
    intro ⟨_, _, h⟩
    omega
  simp only [numberPasses] at hi
  obtain ⟨w1, hS, htr, he, hh, _, _⟩ := Shred_fail_at path w ino flt (2 + 3 * i + s) hl
    (by omega) (by omega) hok hflt (fun hc => hlt (hcopy hc))
  have hm : (2 + 3 * i + s - 2) % 3 = s := by omega
  have hctx : callContext (2 + 3 * i + s) = stepContext s := by
    interval_cases i <;> interval_cases s <;> rfl
  have hnm : callName (2 + 3 * i + s) = stepName s := by
    interval_cases i <;> interval_cases s <;> rfl
  have hop : callOp path w.nextFd (w.fs.inodes ino).length (2 + 3 * i + s)
      = stepOp w.nextFd (w.fs.inodes ino).length s := by
    interval_cases i <;> interval_cases s <;> rfl
  have hd : deferredCalls path w.nextFd w (2 + 3 * i + s)
      = [⟨.close w.nextFd, closeErr path (w.fault (w.trace.length + (2 + 3 * i + s) + 1))⟩] := by
    simp only [deferredCalls]
    rw [if_pos ⟨by omega, by omega⟩]
  have htake : (shredOps path w.nextFd (w.fs.inodes ino).length).take (2 + 3 * i + s)
      = [.lstat path, .openFile path O_WRONLY 0]
          ++ passOpsN w.nextFd (w.fs.inodes ino).length i
          ++ (passOps w.nextFd (w.fs.inodes ino).length).take s := by
    interval_cases i <;> interval_cases s <;> rfl
  rw [hctx, hnm] at hS
  rw [hnm, hop, hd, htake] at htr
  rw [hS]
  refine ⟨rfl, rfl, htr, ?_, ?_, hh (by omega)⟩
  · rw [newCalls_of_trace w w1 _ (by rw [htr, List.append_assoc])]
    interval_cases i <;> interval_cases s <;> simp [okCalls, passOpsN, passOps, stepOp]
  · rw [lookup_entries _ _ he]; exact hl

theorem C8_pass_step_fails_witness :
    (1 < numberPasses) ∧ (1 < 3)
      ∧ (demoWorld secondCopyFails).fs.lookup "f" = some (.regular 7)
      ∧ (∀ j, j < 2 + 3 * 1 + 1 → callOk (demoWorld secondCopyFails) 3 j)
      ∧ (demoWorld secondCopyFails).fault 6 = some ⟨ENOSPC, 1⟩
      ∧ (Shred "f" (demoWorld secondCopyFails)).1
          = some (.errorString "failed to overwrite file: write f: no space left on device")
      ∧ (Shred "f" (demoWorld secondCopyFails)).2.trace =
          [⟨.lstat "f", none⟩, ⟨.openFile "f" 1 0, none⟩,
            ⟨.seek 3 0 0, none⟩, ⟨.copyN 3 3, none⟩, ⟨.sync 3, none⟩,
            ⟨.seek 3 0 0, none⟩,
            ⟨.copyN 3 3, some (.pathError "write" "f" (.errno ENOSPC))⟩,
            ⟨.close 3, none⟩]
      ∧ (Shred "f" (demoWorld secondCopyFails)).2.fs.lookup "f" = some (.regular 7) :=
  have hok : ∀ j, j < 2 + 3 * 1 + 1 → callOk (demoWorld secondCopyFails) 3 j :=
    fun j hj => callOk_of_none _ _ _ (by
      have hj6 : j < 6 := hj
      interval_cases j <;> rfl)
  have h := C8_pass_step_fails (demoWorld secondCopyFails) "f" 7 ⟨ENOSPC, 1⟩ 1 1
    (by decide) (by decide) (by decide) hok rfl (fun _ => by decide)
  ⟨by decide, by decide, by decide, hok, rfl, h.1.trans (by decide), h.2.2.1.trans (by decide),
    h.2.2.2.2.1⟩

/-- C9, amended: in every run of `Shred`, the first call that fails (an `Lstat`, open, seek,
copy, sync, explicit close or remove) has its error returned to the caller: the returned
error is that very error when it is a not-exist `Lstat` error, and otherwise the error that
`Errorf` makes from the context of the failed call and that error; the only call that can
follow the first failure is the close made by the deferred function, whose outcome is
discarded. -/
theorem C9_first_failure_returned (w : World) (path : String) (pre post : List Call)
    (c : Call) (e : Error)
    (hsplit : newCalls w (Shred path w).2 = pre ++ c :: post)
    (hpre : ∀ c1, c1 ∈ pre → c1.err = none) (hc : c.err = some e) :
    (Shred path w).1 = some (if c.op.isLstat = true ∧ IsNotExist e = true then e
        else Errorf (failureContext c.op) e)
      ∧ Returned (Shred path w).1 e
      ∧ (post = [] ∨ ∃ cerr, post = [⟨.close w.nextFd, cerr⟩]) := by
  have key : ∀ ret : Option Error,
      ret = some (if c.op.isLstat = true ∧ IsNotExist e = true then e
        else Errorf (failureContext c.op) e) → Returned ret e := by
    intro ret h
    rw [h]
    split
    · exact Or.inl rfl
    · exact Or.inr ⟨_, rfl⟩
  have hlstat : ∀ code : Nat,
      Shred path w = (some (if code = ENOENT then .pathError "lstat" path (.errno code)
          else Errorf "failed to get file information: "
            (.pathError "lstat" path (.errno code))),
        w.record (.lstat path) (some (.pathError "lstat" path (.errno code)))) →
      (Shred path w).1 = some (if c.op.isLstat = true ∧ IsNotExist e = true then e
          else Errorf (failureContext c.op) e) ∧ post = [] := by
    intro code hS
    rw [hS] at hsplit
    have hn : newCalls w (w.record (.lstat path)
        (some (.pathError "lstat" path (.errno code))))
        = [] ++ ⟨.lstat path, some (.pathError "lstat" path (.errno code))⟩ :: [] := by
      simp [newCalls, World.record]
    rw [hn] at hsplit
    obtain ⟨h1, h2⟩ := first_failed_unique [] pre post [] _ c _ e (by simp) rfl hpre hc hsplit
    subst h1
    cases hc
    rw [hS]
    refine ⟨?_, h2⟩
    by_cases hcode : code = ENOENT
    · simp [Op.isLstat, IsNotExist, underlyingError, hcode]
    · simp [Op.isLstat, failureContext, IsNotExist, underlyingError, hcode]
  suffices hmain : (Shred path w).1 = some (if c.op.isLstat = true ∧ IsNotExist e = true then e
        else Errorf (failureContext c.op) e)
      ∧ (post = [] ∨ ∃ cerr, post = [⟨.close w.nextFd, cerr⟩]) from
    ⟨hmain.1, key _ hmain.1, hmain.2⟩
  cases hf0 : w.fault w.trace.length with
  | some flt =>
    obtain ⟨h1, h2⟩ := hlstat flt.code (Shred_lstat_fail path w flt hf0)
    exact ⟨h1, Or.inl h2⟩
  | none =>
    cases hl : w.fs.lookup path with
    | none =>
      obtain ⟨code, hw⟩ := lookup_none w.fs path hl
      obtain ⟨h1, h2⟩ := hlstat code (Shred_absent path w code hw hf0)
      exact ⟨h1, Or.inl h2⟩
    | some node =>
      by_cases hreg : ∃ ino, node = .regular ino
      swap
      · exfalso
        rw [Shred_not_regular path w node hl (fun ino h => hreg ⟨ino, h⟩) hf0] at hsplit
        have hmem : c ∈ newCalls w (w.record (.lstat path) none) := by
          rw [hsplit]
          simp
        simp only [newCalls, World.record, List.drop_left, List.mem_singleton] at hmem
        rw [hmem] at hc
        cases hc
      obtain ⟨ino, rfl⟩ := hreg
      rcases Shred_regular_cases w (w.fs.inodes ino).length hf0 with hok
        | ⟨k, flt, hk1, hk, hok, hflt, hlt⟩
      · exfalso
        obtain ⟨w1, hS, htr, _⟩ := Shred_all_ok path w ino hl hok
        rw [hS, newCalls_of_trace w w1 _ htr] at hsplit
        have hmem : c ∈ okCalls (shredOps path w.nextFd (w.fs.inodes ino).length) := by
          rw [hsplit]
          simp
        rw [okCalls_err _ c hmem] at hc
        cases hc
      · obtain ⟨w1, hS, htr, _⟩ := Shred_fail_at path w ino flt k hl hk1 hk hok hflt hlt
        rw [hS, newCalls_of_trace w w1 _ (by rw [htr, List.append_assoc])] at hsplit
        rw [hS]
        obtain ⟨h1, h2⟩ := first_failed_unique _ pre post _ _ c _ e (okCalls_err _) rfl hpre hc
          hsplit
        subst h1
        cases hc
        have hnl : (callOp path w.nextFd (w.fs.inodes ino).length k).isLstat = false := by
          interval_cases k <;> rfl
        have hctx : failureContext (callOp path w.nextFd (w.fs.inodes ino).length k)
            = callContext k := by
          interval_cases k <;> rfl
        refine ⟨by simp [hnl, hctx], ?_⟩
        rw [h2]
        unfold deferredCalls
        split
        · exact Or.inr ⟨_, rfl⟩
        · exact Or.inl rfl

theorem C9_first_failure_returned_witness :
    newCalls (demoWorld seekAndCloseFail) (Shred "f" (demoWorld seekAndCloseFail)).2
        = [⟨.lstat "f", none⟩, ⟨.openFile "f" 1 0, none⟩]
          ++ ⟨.seek 3 0 0, some (.pathError "seek" "f" (.errno EIO))⟩
            :: [⟨.close 3, some (.pathError "close" "f" (.errno ENOSPC))⟩]
      ∧ (∀ c1, c1 ∈ [(⟨.lstat "f", none⟩ : Call), ⟨.openFile "f" 1 0, none⟩] → c1.err = none)
      ∧ (Shred "f" (demoWorld seekAndCloseFail)).1
          = some (.errorString "failed to seek file: seek f: input/output error")
      ∧ Returned (Shred "f" (demoWorld seekAndCloseFail)).1
          (.pathError "seek" "f" (.errno EIO)) :=
  have h := C9_first_failure_returned (demoWorld seekAndCloseFail) "f"
    [⟨.lstat "f", none⟩, ⟨.openFile "f" 1 0, none⟩]
    [⟨.close 3, some (.pathError "close" "f" (.errno ENOSPC))⟩]
    ⟨.seek 3 0 0, some (.pathError "seek" "f" (.errno EIO))⟩
    (.pathError "seek" "f" (.errno EIO)) (by decide) (by decide) rfl
  ⟨by decide, by decide, h.1.trans (by decide), h.2.1⟩

/-- C9 as stated fails: with the first seek failing, the deferred function closes the file,
that close fails too, and `Shred` returns the seek error alone; the close error is neither
the returned error nor part of it. -/
theorem C9_counterexample :
    (⟨.close 3, some (.pathError "close" "f" (.errno ENOSPC))⟩ : Call)
        ∈ newCalls (demoWorld seekAndCloseFail) (Shred "f" (demoWorld seekAndCloseFail)).2
      ∧ (Shred "f" (demoWorld seekAndCloseFail)).1
          = some (.errorString "failed to seek file: seek f: input/output error")
      ∧ ¬ Returned (Shred "f" (demoWorld seekAndCloseFail)).1
          (.pathError "close" "f" (.errno ENOSPC)) := by
  have hr : (Shred "f" (demoWorld seekAndCloseFail)).1
      = some (.errorString "failed to seek file: seek f: input/output error") := by decide
  refine ⟨by decide, hr, ?_⟩
  rw [hr]
  rintro (h | ⟨context, h⟩)
  · cases h
  · have hm : (Error.pathError "close" "f" (.errno ENOSPC)).message
        = "close f: no space left on device" := by decide
    simp only [Errorf, hm, Option.some.injEq, Error.errorString.injEq] at h
    have h2 := congrArg (fun s => s.data.getLast?) h
    simp at h2

/-- C10: in every run of `Shred`, a remove of the path is called exactly when the path names
a regular file and the first twelve calls all succeeded: the `Lstat`, the open, the seek, copy
and sync of each of the three passes, and the explicit close. In particular, when the explicit
close is the first call to fail, `Shred` returns `failed to close file: ` with the cause, no
remove is called and the entry is still there; and when the remove is the first call to fail,
`Shred` returns `failed to delete file: ` with the cause, the content is already the bytes of
the third pass and the entry is still there. -/
theorem C10_remove_iff (w : World) (path : String) :
    ((∃ c, c ∈ newCalls w (Shred path w).2 ∧ c.op = .remove path) ↔
        ∃ ino, w.fs.lookup path = some (.regular ino)
          ∧ [(⟨.lstat path, none⟩ : Call), ⟨.openFile path O_WRONLY 0, none⟩,
              ⟨.seek w.nextFd 0 0, none⟩, ⟨.copyN w.nextFd (w.fs.inodes ino).length, none⟩,
              ⟨.sync w.nextFd, none⟩,
              ⟨.seek w.nextFd 0 0, none⟩, ⟨.copyN w.nextFd (w.fs.inodes ino).length, none⟩,
              ⟨.sync w.nextFd, none⟩,
              ⟨.seek w.nextFd 0 0, none⟩, ⟨.copyN w.nextFd (w.fs.inodes ino).length, none⟩,
              ⟨.sync w.nextFd, none⟩,
              ⟨.close w.nextFd, none⟩] <+: newCalls w (Shred path w).2)
      ∧ (∀ ino flt, w.fs.lookup path = some (.regular ino) →
          (∀ j, j < 11 → callOk w (w.fs.inodes ino).length j) →
          w.fault (w.trace.length + 11) = some flt →
          (Shred path w).1 = some (Errorf "failed to close file: "
              (.pathError "close" path (.errno flt.code)))
            ∧ (∀ c, c ∈ newCalls w (Shred path w).2 → c.op ≠ .remove path)
            ∧ (Shred path w).2.fs.lookup path = some (.regular ino))
      ∧ (∀ ino flt, w.fs.lookup path = some (.regular ino) →
          (∀ j, j < 12 → callOk w (w.fs.inodes ino).length j) →
          w.fault (w.trace.length + 12) = some flt →
          (Shred path w).1 = some (Errorf "failed to delete file: "
              (.pathError "remove" path (.errno flt.code)))
            ∧ (Shred path w).2.fs.inodes ino
                = randomBytes w.rand (w.randPos + 2 * (w.fs.inodes ino).length)
                    (w.fs.inodes ino).length
            ∧ (Shred path w).2.fs.lookup path = some (.regular ino)) := by
  refine ⟨?_, ?_, ?_⟩
  · cases hf0 : w.fault w.trace.length with
    | some flt =>
      rw [Shred_lstat_fail path w flt hf0]
      simp [newCalls, World.record]
    | none =>
      cases hl : w.fs.lookup path with
      | none =>
        obtain ⟨code, hw⟩ := lookup_none w.fs path hl
        rw [Shred_absent path w code hw hf0]
        simp [newCalls, World.record]
      | some node =>
        by_cases hreg : ∃ ino, node = .regular ino
        swap
        · rw [Shred_not_regular path w node hl (fun ino h => hreg ⟨ino, h⟩) hf0]
          have hne : ∀ ino, node ≠ .regular ino := fun ino h => hreg ⟨ino, h⟩
          simp [newCalls, World.record, hne]
        obtain ⟨ino, rfl⟩ := hreg
        rcases Shred_regular_cases w (w.fs.inodes ino).length hf0 with hok
          | ⟨k, flt, hk1, hk, hok, hflt, hlt⟩
        · obtain ⟨w1, hS, htr, _⟩ := Shred_all_ok path w ino hl hok
          rw [hS, newCalls_of_trace w w1 _ htr]
          constructor
          · intro _
            exact ⟨ino, rfl, ⟨[⟨.remove path, none⟩], by
              simp [okCalls, shredOps, numberPasses, passOpsN, passOps]⟩⟩
          · intro _
            exact ⟨⟨.remove path, none⟩, by simp [okCalls, shredOps], rfl⟩
        · obtain ⟨w1, hS, htr, _⟩ := Shred_fail_at path w ino flt k hl hk1 hk hok hflt hlt
          rw [hS, newCalls_of_trace w w1 _ (by rw [htr, List.append_assoc])]
          clear hS htr hok hflt hlt hl
          constructor
          · rintro ⟨c, hc, hop⟩
            refine ⟨ino, rfl, ?_⟩
            rcases Nat.lt_or_ge k 12 with h12 | h12
            · exfalso
              revert c
              interval_cases k <;>
                simp [okCalls, shredOps, numberPasses, passOpsN, passOps, callOp, stepOp,
                  deferredCalls]
            · have hk12 : k = 12 := by omega
              subst hk12
              exact ⟨[⟨.remove path, some (.pathError (callName 12) path (.errno flt.code))⟩],
                by simp [okCalls, shredOps, numberPasses, passOpsN, passOps, callOp,
                  deferredCalls]⟩
          · rintro ⟨ino1, hino, hpre⟩
            simp only [Option.some.injEq, Node.regular.injEq] at hino
            subst hino
            rcases Nat.lt_or_ge k 12 with h12 | h12
            · exfalso
              revert hpre
              interval_cases k <;>
                simp [okCalls, shredOps, numberPasses, passOpsN, passOps, callOp, stepOp,
                  deferredCalls]
            · have hk12 : k = 12 := by omega
              subst hk12
              exact ⟨⟨.remove path, some (.pathError (callName 12) path (.errno flt.code))⟩,
                by simp [callOp], by simp [callOp]⟩
  · intro ino flt hl hok hflt
    obtain ⟨w1, hS, htr, he, _⟩ := Shred_close_fail path w ino flt hl hok hflt
    rw [hS]
    refine ⟨rfl, ?_, by rw [lookup_entries _ _ he]; exact hl⟩
    rw [newCalls_of_trace w w1 _ (by rw [htr, List.append_assoc])]
    simp [okCalls, shredOps, numberPasses, passOpsN, passOps]
  · intro ino flt hl hok hflt
    obtain ⟨w1, hS, _, he, _, _, hdata⟩ := Shred_remove_fail path w ino flt hl hok hflt
    rw [hS]
    exact ⟨rfl, hdata, by rw [lookup_entries _ _ he]; exact hl⟩

theorem C10_remove_iff_witness :
    (demoWorld removeFails).fs.lookup "f" = some (.regular 7)
      ∧ (∀ j, j < 12 → callOk (demoWorld removeFails) 3 j)
      ∧ (demoWorld removeFails).fault 12 = some ⟨ EIO, 0⟩
      ∧ (Shred "f" (demoWorld removeFails)).1
          = some (.errorString "failed to delete file: remove f: input/output error")
      ∧ (Shred "f" (demoWorld removeFails)).2.fs.inodes 7 = [16, 17, 18]
      ∧ (Shred "f" (demoWorld removeFails)).2.fs.lookup "f" = some (.regular 7)
      ∧ (∃ c, c ∈ newCalls (demoWorld removeFails) (Shred "f" (demoWorld removeFails)).2
          ∧ c.op = .remove "f") :=
  have hok : ∀ j, j < 12 → callOk (demoWorld removeFails) 3 j :=
    fun j hj => callOk_of_none _ _ _ (by interval_cases j <;> rfl)
  have h := (C10_remove_iff (demoWorld removeFails) "f").2.2 7 ⟨ EIO, 0⟩ (by decide) hok rfl
  ⟨by decide, hok, rfl, h.1.trans (by decide), h.2.1.trans (by decide), h.2.2,
    ((C10_remove_iff (demoWorld removeFails) "f").1).mpr ⟨7, by decide, by decide⟩⟩

end ShredGo
